import Mathlib

/-!
# Verification of the JSON metric-extraction and tabular-reconciliation pipeline

Shallow embedding of the pipeline scripts of the repository
(`scripts/first_days_json_parser.py`, `scripts/process_youtube_json.py`,
`scripts/merge_chart_data.py`, `scripts/all_videos_by_day.py`), followed by
theorems settling the specification's claims about them.

Conventions of the embedding:
* decoded JSON documents are the inductive `Json` (maps, sequences, scalars);
* Python exceptions are the inductive `PyErr`; code that can raise runs in
  `Except PyErr`; a `try/except` catching particular exception classes is a
  `match` on the error that re-raises the classes it does not catch;
* `None`/NaN cells are `Option` values (`none` = missing);
* numeric values are exact rationals `ℚ`; the one place where IEEE special
  values matter (pandas division by zero in `all_videos_by_day.py`) uses the
  dedicated type `PVal` with explicit `nan`/`pinf`/`ninf` constructors.
-/

namespace YTA

/-! ## The document model

`Json` is a decoded input document: an arbitrarily nested tree of maps
(`obj`, association list in insertion order, keys unique), sequences
(`arr`) and scalars. -/

inductive Json where
  | null : Json
  | bool (b : Bool) : Json
  | num (q : ℚ) : Json
  | str (s : String) : Json
  | arr (xs : List Json) : Json
  | obj (fields : List (String × Json)) : Json

/-- Python exception classes raised by the operations the pipeline uses. -/
inductive PyErr where
  | keyError : PyErr
  | indexError : PyErr
  | typeError : PyErr
  | attributeError : PyErr
  | valueError : PyErr
deriving DecidableEq, Repr

/-- Field lookup in a map (first binding wins; `Json.obj` keys are unique). -/
def jlookup : List (String × Json) → String → Option Json
  | [], _ => none
  | (k, v) :: rest, key => if k = key then some v else jlookup rest key

/-- Python truthiness of a decoded JSON value: `None`, `False`, `0`, `""`,
`[]` and `{}` are falsy, everything else truthy. -/
def Json.truthy : Json → Bool
  | .null => false
  | .bool b => b
  | .num q => !(decide (q = 0))
  | .str s => !(decide (s = ""))
  | .arr xs => !xs.isEmpty
  | .obj fs => !fs.isEmpty

/-- The one-character string at position `i` of `s` (Python `s[i]` for a
string returns a length-1 string). -/
def strCharAt (s : String) (i : Nat) : String :=
  match s.toList.get? i with
  | some c => String.mk [c]
  | none => ""

/-- Python `current[part]` with a string subscript: field lookup on a dict
(raises `KeyError` when absent), `TypeError` on every other value. -/
def pyGetField : Json → String → Except PyErr Json
  | .obj fs, key =>
      match jlookup fs key with
      | some v => .ok v
      | none => .error .keyError
  | _, _ => .error .typeError

/-- Python `current[i]` with a non-negative integer subscript: sequence
indexing on a list (raises `IndexError` out of range), character access on a
string (`IndexError` out of range), `KeyError` on a dict (decoded JSON maps
have only string keys, so an integer key is never present), `TypeError` on
scalars. -/
def pyGetIndex : Json → Nat → Except PyErr Json
  | .arr xs, i =>
      match xs.get? i with
      | some v => .ok v
      | none => .error .indexError
  | .str s, i =>
      if i < s.toList.length then .ok (.str (strCharAt s i)) else .error .indexError
  | .obj _, _ => .error .keyError
  | _, _ => .error .typeError

/-- One parsed segment of a dot-notation path: a field name, optionally with
a bracketed non-negative integer index (`name` or `name[i]`).  This is the
well-formed-path scope of the claims; the string surgery of
`extract_value_from_path` (split on `.`, then on `[` and `]`, `int(...)`)
yields exactly these on a well-formed path. -/
inductive Seg where
  | field (name : String) : Seg
  | indexed (name : String) (idx : Nat) : Seg
deriving DecidableEq, Repr

/-- One iteration of the loop body of `extract_value_from_path`
(`scripts/first_days_json_parser.py` lines 25-32): for `name[i]` do
`current[name][i]`, otherwise `current[part]`. -/
def segStep (cur : Json) : Seg → Except PyErr Json
  | .field name => pyGetField cur name
  | .indexed name i =>
      match pyGetField cur name with
      | .ok looked => pyGetIndex looked i
      | .error e => .error e

/-- The loop of `extract_value_from_path`: segments left to right; any
raised exception propagates out of the loop. -/
def extractLoop : Json → List Seg → Except PyErr Json
  | cur, [] => .ok cur
  | cur, sg :: rest =>
      match segStep cur sg with
      | .ok nxt => extractLoop nxt rest
      | .error e => .error e

/-- `extract_value_from_path` (`scripts/first_days_json_parser.py` lines
9-36): run the loop under `try/except (KeyError, IndexError, TypeError)`,
returning `None` on those three classes; any other exception class would
propagate (`.error`).  `.ok (some v)` is a found value, `.ok none` is the
function's `None`. -/
def extract_value_from_path (data : Json) (path : List Seg) :
    Except PyErr (Option Json) :=
  match extractLoop data path with
  | .ok v => .ok (some v)
  | .error .keyError => .ok none
  | .error .indexError => .ok none
  | .error .typeError => .ok none
  | .error e => .error e

/-- The extractor as the pipeline's callers see it (they rely on it never
raising, which `resolveAmended_spec` proves for this error model). -/
def extractOpt (data : Json) (path : List Seg) : Option Json :=
  match extract_value_from_path data path with
  | .ok v => v
  | .error _ => none

/-- Modelled from the claim's words for refinement comparison (spec §4.1 and
§3 "RawDocument"): the resolver the claim describes.  A field lookup needs a
map; an index needs a *sequence* — in the spec's data model strings are
scalars, so only `arr` is indexable; every structural mismatch is NotFound
(`none`). -/
def resolveClaim : Json → List Seg → Option Json
  | v, [] => some v
  | v, .field name :: rest =>
      match v with
      | .obj fs =>
          match jlookup fs name with
          | some v' => resolveClaim v' rest
          | none => none
      | _ => none
  | v, .indexed name i :: rest =>
      match v with
      | .obj fs =>
          match jlookup fs name with
          | some (.arr xs) =>
              match xs.get? i with
              | some e => resolveClaim e rest
              | none => none
          | some _ => none
          | none => none
      | _ => none

/-- The amended resolver: same as `resolveClaim`, except that — as the
Python source actually behaves — a string value is also indexable, an
in-range index returning its one-character substring. -/
def resolveAmended : Json → List Seg → Option Json
  | v, [] => some v
  | v, .field name :: rest =>
      match v with
      | .obj fs =>
          match jlookup fs name with
          | some v' => resolveAmended v' rest
          | none => none
      | _ => none
  | v, .indexed name i :: rest =>
      match v with
      | .obj fs =>
          match jlookup fs name with
          | some (.arr xs) =>
              match xs.get? i with
              | some e => resolveAmended e rest
              | none => none
          | some (.str s) =>
              if i < s.toList.length then resolveAmended (.str (strCharAt s i)) rest
              else none
          | some _ => none
          | none => none
      | _ => none

/-- Concrete document for the C2 counterexample: `{"a": "hi"}`. -/
def strIndexDoc : Json := .obj [("a", .str "hi")]

/-- Concrete path for the C2 counterexample: `a[0]`. -/
def strIndexPath : List Seg := [.indexed "a" 0]

/-! ## Auxiliary Python semantics used by `process_json_file` -/

/-- Python `len()` on the values the pipeline reaches: list length, string
length, number of dict keys; `TypeError` on scalars. -/
def pyLen : Json → Except PyErr Nat
  | .arr xs => .ok xs.length
  | .str s => .ok s.toList.length
  | .obj fs => .ok fs.length
  | _ => .error .typeError

/-- Python iteration (`for x in v`): list elements, string characters (as
one-character strings), dict keys; `TypeError` on scalars. -/
def pyIter : Json → Except PyErr (List Json)
  | .arr xs => .ok xs
  | .str s => .ok (s.toList.map (fun c => .str (String.mk [c])))
  | .obj fs => .ok (fs.map (fun p => .str p.1))
  | _ => .error .typeError

/-- Python `.get(key, default)` on a dict; any other receiver has no `.get`
attribute (`AttributeError`). -/
def pyDictGet (j : Json) (key : String) (dflt : Json) : Except PyErr Json :=
  match j with
  | .obj fs => .ok ((jlookup fs key).getD dflt)
  | _ => .error .attributeError

/-- Python `==` against an integer constant (used for the period `count`
comparisons): numbers compare numerically, `True`/`False` equal `1`/`0`. -/
def pyEqNum (j : Json) (q : ℚ) : Bool :=
  match j with
  | .num x => decide (x = q)
  | .bool b => decide ((if b then (1 : ℚ) else 0) = q)
  | _ => false

mutual

/-- Structural equality test on decoded JSON (Python `==` between decoded
values), used for dict keys in the metadata map. -/
def jsonEq : Json → Json → Bool
  | .null, .null => true
  | .bool a, .bool b => a == b
  | .num a, .num b => decide (a = b)
  | .str a, .str b => a == b
  | .arr a, .arr b => jsonEqList a b
  | .obj a, .obj b => jsonEqFields a b
  | _, _ => false

def jsonEqList : List Json → List Json → Bool
  | [], [] => true
  | a :: as, b :: bs => jsonEq a b && jsonEqList as bs
  | _, _ => false

def jsonEqFields : List (String × Json) → List (String × Json) → Bool
  | [], [] => true
  | (k, v) :: as, (k2, v2) :: bs => k == k2 && jsonEq v v2 && jsonEqFields as bs
  | _, _ => false

end

/-- `None` test on a cell. -/
def Json.isNull : Json → Bool
  | .null => true
  | _ => false

/-- Digit-string accumulation for `int(...)`/`pd.to_numeric` string parsing. -/
def digitsToNat : List Char → Nat → Option Nat
  | [], acc => some acc
  | c :: rest, acc =>
      if c.isDigit then digitsToNat rest (acc * 10 + (c.toNat - 48)) else none

/-- Python `int(s)` on a string: optional sign, then digits; `None` (a
raised `ValueError` caught by the caller) otherwise. -/
def strToInt? (s : String) : Option ℤ :=
  match s.toList with
  | [] => none
  | c :: rest =>
      if c = '-' then
        if rest.isEmpty then none else (digitsToNat rest 0).map (fun n => -(n : ℤ))
      else if c = '+' then
        if rest.isEmpty then none else (digitsToNat rest 0).map (fun n => (n : ℤ))
      else (digitsToNat (c :: rest) 0).map (fun n => (n : ℤ))

/-- Truncation toward zero (Python `int()` on a float, numpy `astype(int)`). -/
def ratTrunc (q : ℚ) : ℤ := if 0 ≤ q then ⌊q⌋ else ⌈q⌉

/-- Python `int(x)`: ints/floats truncate, bools are 0/1, strings parse;
anything else raises (`None` here, the caller catches). -/
def pyToInt : Json → Option ℤ
  | .num q => some (ratTrunc q)
  | .bool b => some (if b then 1 else 0)
  | .str s => strToInt? s
  | _ => none

/-- Zero-padded two-digit rendering for timestamp fields. -/
def pad2 (n : ℤ) : String := if n < 10 then "0" ++ toString n else toString n

/-- Civil date from days since the Unix epoch (proleptic Gregorian). -/
def civilFromDays (z0 : ℤ) : ℤ × ℤ × ℤ :=
  let z := z0 + 719468
  let era : ℤ := Int.fdiv z 146097
  let doe : ℤ := z - era * 146097
  let yoe : ℤ :=
    Int.fdiv (doe - Int.fdiv doe 1460 + Int.fdiv doe 36524 - Int.fdiv doe 146096) 365
  let y : ℤ := yoe + era * 400
  let doy : ℤ := doe - (365 * yoe + Int.fdiv yoe 4 - Int.fdiv yoe 100)
  let mp : ℤ := Int.fdiv (5 * doy + 2) 153
  let d : ℤ := doy - Int.fdiv (153 * mp + 2) 5 + 1
  let m : ℤ := mp + (if mp < 10 then 3 else -9)
  (y + (if m ≤ 2 then 1 else 0), m, d)

/-- `datetime.fromtimestamp(t).strftime('%Y-%m-%d %H:%M:%S')`, rendered in
UTC (the source renders in the process's local timezone, an environment
parameter outside the embedding; no claim depends on the rendered text). -/
def formatTimestamp (t : ℤ) : String :=
  let days := Int.fdiv t 86400
  let secs := t - days * 86400
  let ymd := civilFromDays days
  let hh := Int.fdiv secs 3600
  let mm := Int.fdiv (secs - hh * 3600) 60
  let ss := secs - hh * 3600 - mm * 60
  toString ymd.1 ++ "-" ++ pad2 ymd.2.1 ++ "-" ++ pad2 ymd.2.2 ++ " " ++
    pad2 hh ++ ":" ++ pad2 mm ++ ":" ++ pad2 ss

/-- `convert_timestamp_to_datetime` (`scripts/first_days_json_parser.py`
lines 38-53): `int(timestamp)` then format, `None` on
`ValueError`/`TypeError`. -/
def convert_timestamp_to_datetime (j : Json) : Option String :=
  (pyToInt j).map formatTimestamp

/-! ## `process_json_file` (`scripts/first_days_json_parser.py` lines 55-226) -/

/-- The fixed path prefix
`results[0].value.getCards.cards[0].scatterplotData.resultTable`. -/
def basePath : List Seg :=
  [.indexed "results" 0, .field "value", .field "getCards", .indexed "cards" 0,
   .field "scatterplotData", .field "resultTable"]

/-- `{base}.dimensionColumns[0].strings.values`. -/
def videosPath : List Seg :=
  basePath ++ [.indexed "dimensionColumns" 0, .field "strings", .field "values"]

/-- `results[0].value.getCards.cards[0].sideEntities.videos`. -/
def entitiesPath : List Seg :=
  [.indexed "results" 0, .field "value", .field "getCards", .indexed "cards" 0,
   .field "sideEntities", .field "videos"]

/-- `results[0].value.getCards.cards[0].config.scatterplotDataConfig.timePeriod`. -/
def configPath : List Seg :=
  [.indexed "results" 0, .field "value", .field "getCards", .indexed "cards" 0,
   .field "config", .field "scatterplotDataConfig", .field "timePeriod"]

/-- The value-array kind of each of the 10 metric slots (`metric_paths`,
lines 110-121). -/
def metricKinds : List String :=
  ["counts", "counts", "percentages", "percentages", "milliseconds",
   "milliseconds", "counts", "counts", "counts", "counts"]

/-- The hardcoded fallback column name of each metric slot. -/
def fallbackNames : List String :=
  ["VIEWS", "VIDEO_THUMBNAIL_IMPRESSIONS", "VIDEO_THUMBNAIL_IMPRESSIONS_VTR",
   "AVERAGE_WATCH_PERCENTAGE", "AVERAGE_WATCH_TIME", "WATCH_TIME",
   "RATINGS_LIKES", "RATINGS_DISLIKES", "NEW_VIEWERS", "RETURNING_NEW_VIEWERS"]

/-- `{base}.metricColumns[i].{kind}.values`. -/
def metricValuesPath (i : Nat) : List Seg :=
  basePath ++ [.indexed "metricColumns" i, .field (metricKinds.getD i ""),
    .field "values"]

/-- `{base}.metricColumns[i].metric.type` (the name-discovery path). -/
def metricNamePath (i : Nat) : List Seg :=
  basePath ++ [.indexed "metricColumns" i, .field "metric", .field "type"]

/-- One metadata record of `video_metadata` (lines 99-103). -/
structure MetaEntry where
  title : Json
  published_date : Option String
  published_seconds : Json

/-- The body of the entity loop (lines 92-105): the three `entityData`
lookups under `try/except (KeyError, TypeError)` — a failing entity is
skipped. -/
def metaOfEntity (e : Json) : Option (Json × MetaEntry) :=
  match pyGetField e "entityData" with
  | .error _ => none
  | .ok ed =>
      match pyGetField ed "videoId" with
      | .error _ => none
      | .ok vid =>
          match pyGetField ed "title" with
          | .error _ => none
          | .ok title =>
              match pyGetField ed "timePublishedSeconds" with
              | .error _ => none
              | .ok ts => some (vid, ⟨title, convert_timestamp_to_datetime ts, ts⟩)

/-- Python dict assignment `video_metadata[video_id] = {...}`: overwrite the
existing binding in place, else append. -/
def dictInsert : List (Json × MetaEntry) → Json → MetaEntry → List (Json × MetaEntry)
  | [], k, v => [(k, v)]
  | (k0, v0) :: rest, k, v =>
      if jsonEq k0 k then (k0, v) :: rest else (k0, v0) :: dictInsert rest k v

/-- Python dict lookup on the metadata map. -/
def metaLookup : List (Json × MetaEntry) → Json → Option MetaEntry
  | [], _ => none
  | (k0, v0) :: rest, k => if jsonEq k0 k then some v0 else metaLookup rest k

/-- The entity loop folded over the decoded entity list. -/
def foldEntities (acc : List (Json × MetaEntry)) : List Json → List (Json × MetaEntry)
  | [] => acc
  | e :: rest =>
      match metaOfEntity e with
      | some kv => foldEntities (dictInsert acc kv.1 kv.2) rest
      | none => foldEntities acc rest

/-- Metadata extraction (lines 86-107): iterate `sideEntities.videos` when
truthy; a non-iterable truthy value raises out of the function (the `for`
statement is outside the per-entity `try`). -/
def metadataOf (data : Json) : Except PyErr (List (Json × MetaEntry)) :=
  let ents := (extractOpt data entitiesPath).getD .null
  if ents.truthy then
    match pyIter ents with
    | .error e => .error e
    | .ok l => .ok (foldEntities [] l)
  else .ok []

/-- The 10 extracted metric value objects (lines 134-142): the raw extracted
value when truthy, else the fallback `[None] * len(video_ids)`. -/
def metricValuesOf (data : Json) (n : Nat) : List Json :=
  (List.range fallbackNames.length).map (fun i =>
    let v := (extractOpt data (metricValuesPath i)).getD .null
    if v.truthy then v else .arr (List.replicate n .null))

/-- The discovered metric name of slot `i`, `Json.null` when the path is
absent (lines 123-132 bind `metric_type` to the extraction result). -/
def nameAt (data : Json) (i : Nat) : Json :=
  (extractOpt data (metricNamePath i)).getD .null

/-- `metric_names` (lines 124-132): the truthy discovered names, in slot
order — falsy slots are skipped, not recorded. -/
def collectNames (data : Json) : List Json :=
  ((List.range fallbackNames.length).map (nameAt data)).filter Json.truthy

/-- `metric_headers` (lines 168-172): the discovered names when all 10 were
collected and all are truthy, else the 10 fallback names. -/
def metricHeadersOf (data : Json) : List Json :=
  let names := collectNames data
  if names.length = fallbackNames.length ∧ names.all Json.truthy then names
  else fallbackNames.map Json.str

/-- `f"{v}"` on the values `count` can take (scalars render as in Python;
composite values are rendered as placeholders — no claim reaches them). -/
def jsonFormat : Json → String
  | .null => "None"
  | .bool true => "True"
  | .bool false => "False"
  | .num q => if q.den = 1 then toString q.num else toString q
  | .str s => s
  | .arr _ => "[...]"
  | .obj _ => "\x7b...\x7d"

/-- Time-period label (lines 149-163): read `config...timePeriod`, default
`"24h"`; `count` of 1/7/28 maps to `24h`/`7d`/`28d`, anything else formats
as `f"{count}d"`. -/
def timePeriodOf (data : Json) : Except PyErr String :=
  let cfg := (extractOpt data configPath).getD .null
  if cfg.truthy then
    match pyDictGet cfg "count" (.num 1) with
    | .error e => .error e
    | .ok count =>
        .ok (if pyEqNum count 1 then "24h"
             else if pyEqNum count 7 then "7d"
             else if pyEqNum count 28 then "28d"
             else jsonFormat count ++ "d")
  else .ok "24h"

/-- One assembled row of `csv_data` (lines 183-191). -/
structure FDRow where
  video_id : Json
  title : Json
  published_date : Json
  time_period : String
  json_source : String
  metrics : List Json

/-- `video_metadata.get(video_id, {}).get('title', '')`. -/
def titleOf (meta : List (Json × MetaEntry)) (vid : Json) : Json :=
  match metaLookup meta vid with
  | some en => en.title
  | none => .str ""

/-- `video_metadata.get(video_id, {}).get('published_date', '')` — an entry
always carries the key, so a present video yields the stored value (possibly
`None`); an absent one yields `''`. -/
def pubOf (meta : List (Json × MetaEntry)) (vid : Json) : Json :=
  match metaLookup meta vid with
  | some en =>
      match en.published_date with
      | some s => .str s
      | none => .null
  | none => .str ""

/-- The metric cells of the row at position `i` (lines 185-189):
`metric[i]` when `i < len(metric)`, else `None`. -/
def metricCellsFor : List Json → Nat → Except PyErr (List Json)
  | [], _ => .ok []
  | m :: ms, i =>
      match pyLen m with
      | .error e => .error e
      | .ok n =>
          match (if i < n then pyGetIndex m i else .ok .null) with
          | .error e => .error e
          | .ok c =>
              match metricCellsFor ms i with
              | .error e => .error e
              | .ok cs => .ok (c :: cs)

/-- The row loop (lines 177-191): one row per `enumerate(video_ids)` entry. -/
def process_rows (meta : List (Json × MetaEntry)) (mvals : List Json)
    (period src : String) : List Json → Nat → Except PyErr (List FDRow)
  | [], _ => .ok []
  | vid :: rest, i =>
      match metricCellsFor mvals i with
      | .error e => .error e
      | .ok cells =>
          match process_rows meta mvals period src rest (i + 1) with
          | .error e => .error e
          | .ok rows =>
              .ok (⟨vid, titleOf meta vid, pubOf meta vid, period, src, cells⟩ :: rows)

/-- `df.dropna(subset=metric_columns, how='all')` (lines 196-198): keep the
rows with at least one non-`None` metric cell. -/
def dropAllNull (rows : List FDRow) : List FDRow :=
  rows.filter (fun r => r.metrics.any (fun c => !c.isNull))

/-- Row assembly followed by the all-null drop. -/
def assembleRows (meta : List (Json × MetaEntry)) (mvals : List Json)
    (period src : String) (ids : List Json) : Except PyErr (List FDRow) :=
  match process_rows meta mvals period src ids 0 with
  | .error e => .error e
  | .ok rows => .ok (dropAllNull rows)

/-- `process_json_file` up to the assembled, all-null-dropped rows:
`.ok none` is an early `return False` (no video ids / no metric values);
`.error` is an exception reaching the outer `except Exception`. -/
def assemble_of (src : String) (data : Json) : Except PyErr (Option (List FDRow)) :=
  let vids := (extractOpt data videosPath).getD .null
  if vids.truthy then
    match metadataOf data with
    | .error e => .error e
    | .ok meta =>
        match pyLen vids with
        | .error e => .error e
        | .ok n =>
            let mvals := metricValuesOf data n
            if mvals.length = 0 then .ok none
            else
              match timePeriodOf data with
              | .error e => .error e
              | .ok period =>
                  match pyIter vids with
                  | .error e => .error e
                  | .ok vlist =>
                      match assembleRows meta mvals period src vlist with
                      | .error e => .error e
                      | .ok rows => .ok (some rows)
  else .ok none

/-! ## Type conversions (lines 200-219) and the combined output -/

/-- Substring containment, Python `pat in s`. -/
def hasSubstr (s pat : String) : Bool := decide (pat.toList <:+: s.toList)

/-- Round half to even at integer precision (numpy/pandas `round`). -/
def roundHalfEven (x : ℚ) : ℤ :=
  let f : ℤ := ⌊x⌋
  let r : ℚ := x - (f : ℚ)
  if r < 1 / 2 then f
  else if 1 / 2 < r then f + 1
  else if f % 2 = 0 then f else f + 1

/-- `round(2)`. -/
def round2 (x : ℚ) : ℚ := (roundHalfEven (x * 100) : ℚ) / 100

/-- `round(1)`. -/
def round1 (x : ℚ) : ℚ := (roundHalfEven (x * 10) : ℚ) / 10

/-- `pd.to_numeric(v, errors='coerce')` on one cell: numbers stay, booleans
are 0/1, numeric strings parse, everything else coerces to NaN (`none`). -/
def strToRatSplit : List Char → List Char × Option (List Char)
  | [] => ([], none)
  | c :: rest =>
      if c = '.' then ([], some rest)
      else
        let pr := strToRatSplit rest
        (c :: pr.1, pr.2)

def strToRat? (s : String) : Option ℚ :=
  let l := s.toList
  let pr : Bool × List Char :=
    match l with
    | [] => (false, [])
    | c :: rest =>
        if c = '-' then (true, rest) else if c = '+' then (false, rest) else (false, l)
  match strToRatSplit pr.2 with
  | (ip, none) =>
      if ip.isEmpty then none
      else (digitsToNat ip 0).map (fun n => if pr.1 then -(n : ℚ) else (n : ℚ))
  | (ip, some fp) =>
      if ip.isEmpty && fp.isEmpty then none
      else
        match digitsToNat ip 0, digitsToNat fp 0 with
        | some a, some b =>
            let v : ℚ := (a : ℚ) + (b : ℚ) / ((10 : ℚ) ^ fp.length)
            some (if pr.1 then -v else v)
        | _, _ => none

def to_numeric : Json → Option ℚ
  | .num q => some q
  | .bool b => some (if b then 1 else 0)
  | .str s => strToRat? s
  | _ => none

/-- The per-column conversion of lines 200-219, applied to one
already-`to_numeric`-coerced cell of the column named `col`:
percentage/VTR columns round to 2 decimals; `WATCH_TIME` is divided by
3,600,000 then rounded to 2; `AVERAGE_WATCH_TIME` is divided by 60,000 then
rounded to 2; any other column containing both `TIME` and `MILLI` is
divided by 1,000 then rounded to 1; all remaining columns fill NaN with 0
and truncate to integer. -/
def convertCell (col : String) (v : Option ℚ) : Option ℚ :=
  if hasSubstr col "PERCENTAGE" || hasSubstr col "VTR" then v.map round2
  else if col = "WATCH_TIME" then v.map (fun x => round2 (x / 3600000))
  else if col = "AVERAGE_WATCH_TIME" then v.map (fun x => round2 (x / 60000))
  else if hasSubstr col "TIME" && hasSubstr col "MILLI" then v.map (fun x => round1 (x / 1000))
  else some ((ratTrunc (v.getD 0) : ℤ) : ℚ)

/-- A row after the conversion pass. -/
structure ConvRow where
  video_id : Json
  title : Json
  published_date : Json
  time_period : String
  json_source : String
  metrics : List (Option ℚ)

def zipConvert : List String → List Json → List (Option ℚ)
  | h :: hs, c :: cs => convertCell h (to_numeric c) :: zipConvert hs cs
  | _, _ => []

def convRow (headers : List String) (r : FDRow) : ConvRow :=
  ⟨r.video_id, r.title, r.published_date, r.time_period, r.json_source,
   zipConvert headers r.metrics⟩

/-- Column labels must be strings for the `"PERCENTAGE" in col` membership
tests; a non-string discovered name raises `TypeError` (caught by the outer
handler). -/
def headerStrsE : List Json → Except PyErr (List String)
  | [] => .ok []
  | .str s :: rest =>
      match headerStrsE rest with
      | .ok ss => .ok (s :: ss)
      | .error e => .error e
  | _ :: _ => .error .typeError

/-- The per-file output table: metric column labels and converted rows. -/
structure FDFrame where
  headers : List String
  rows : List ConvRow

/-- `process_json_file` in the error monad; `.ok none` models the explicit
failure returns. -/
def processE (src : String) (data : Json) : Except PyErr (Option FDFrame) :=
  match assemble_of src data with
  | .error e => .error e
  | .ok none => .ok none
  | .ok (some rows) =>
      match headerStrsE (metricHeadersOf data) with
      | .error e => .error e
      | .ok hs => .ok (some ⟨hs, rows.map (convRow hs)⟩)

/-- `process_json_file` (lines 55-226): the whole body runs under
`except Exception`, so any raised error is a failure return
(`False, message, empty DataFrame` — here `none`). -/
def process_json_file (src : String) (data : Json) : Option FDFrame :=
  match processE src data with
  | .ok r => r
  | .error _ => none

/-! ## `process_multiple_jsons` (lines 228-259) -/

/-- The successfully processed, non-empty frames
(`if success and not df.empty`). -/
def processedFrames (files : List (String × Json)) : List FDFrame :=
  files.filterMap (fun pr =>
    match process_json_file pr.1 pr.2 with
    | some f => if f.rows.isEmpty then none else some f
    | none => none)

/-- `pd.concat(all_dfs, ignore_index=True)` then write-out: `none` when no
file produced data.  Rows are tagged with their frame's column labels (the
claims do not exercise cross-schema column alignment). -/
def process_multiple_jsons (files : List (String × Json)) :
    Option (List (List String × ConvRow)) :=
  let fs := processedFrames files
  if fs.isEmpty then none
  else some (fs.flatMap (fun f => f.rows.map (fun r => (f.headers, r))))

/-! ## The claim-side "first days" assembler (C1) -/

/-- The three period labels of claim C1. -/
def periodNames : List String := ["24h", "7d", "28d"]

/-- Modelled from the claim's words for refinement comparison (spec §4.3,
scenario C): the row set claim C1 describes — for every video index `i` and
period index `p` (0/1/2 for 24h/7d/28d), a row exactly when `i+p` is within
bounds of both the id list and every metric array, with metric values taken
at position `i+p`. -/
def claimRows (src : String) (data : Json) (meta : List (Json × MetaEntry)) :
    List FDRow :=
  let vids :=
    match (extractOpt data videosPath).getD .null with
    | .arr xs => xs
    | _ => []
  let n := vids.length
  let mats := (metricValuesOf data n).map (fun m =>
    match m with
    | .arr xs => xs
    | _ => [])
  (List.range n).flatMap (fun i =>
    (List.range periodNames.length).filterMap (fun p =>
      if decide (i + p < n) && mats.all (fun mat => decide (i + p < mat.length)) then
        some ⟨vids.getD i .null, titleOf meta (vids.getD i .null),
              pubOf meta (vids.getD i .null), periodNames.getD p "", src,
              mats.map (fun mat => mat.getD (i + p) .null)⟩
      else none))

/-! ## Concrete demonstration document for C1/C5/C8 -/

/-- A document with two videos, one metric column `[10, 20, 30]`, a 24h
period config, no metadata and no discoverable metric names. -/
def demoDoc : Json :=
  .obj [("results", .arr [
    .obj [("value", .obj [("getCards", .obj [("cards", .arr [
      .obj [
        ("scatterplotData", .obj [("resultTable", .obj [
          ("dimensionColumns", .arr [
            .obj [("strings", .obj [("values", .arr [.str "v1", .str "v2"])])]]),
          ("metricColumns", .arr [
            .obj [("counts", .obj [("values", .arr [.num 10, .num 20, .num 30])])]])
        ])]),
        ("config", .obj [("scatterplotDataConfig", .obj [
          ("timePeriod", .obj [("count", .num 1)])])])
      ]])])])]])]

/-- The row the code assembles for `v1` in `demoDoc`. -/
def demoRow1 : FDRow :=
  ⟨.str "v1", .str "", .str "", "24h", "demo.json",
   [.num 10, .null, .null, .null, .null, .null, .null, .null, .null, .null]⟩

/-- The row the code assembles for `v2` in `demoDoc`. -/
def demoRow2 : FDRow :=
  ⟨.str "v2", .str "", .str "", "24h", "demo.json",
   [.num 20, .null, .null, .null, .null, .null, .null, .null, .null, .null]⟩

/-- The duplicated input for the C8 counterexample: the same file twice. -/
def demoFiles : List (String × Json) := [("demo.json", demoDoc), ("demo.json", demoDoc)]

/-! ## `merge_csv_from_zips` (`scripts/merge_chart_data.py` lines 6-95)

A CSV cell is a scalar or NaN; a row is an association list from column
label to cell (pandas column alignment by label); a table carries its
column-label list (`df.columns`) so that a key column can be missing even
when there are no rows. -/

inductive Cell where
  | null : Cell
  | str (s : String) : Cell
  | num (q : ℚ) : Cell
deriving DecidableEq, Repr

abbrev CRow := List (String × Cell)

structure CTable where
  cols : List String
  rows : List CRow
deriving DecidableEq, Repr

/-- `key_columns` (line 59). -/
def keyColumns : List String :=
  ["Date", "Content", "Video title", "Video publish time", "Duration"]

/-- Cell of a labelled row under a column label (first binding). -/
def getA {β : Type} : List (String × β) → String → Option β
  | [], _ => none
  | (c, v) :: rest, key => if c = key then some v else getA rest key

/-- Column assignment on a labelled row: replace the first binding, else
append. -/
def setA {β : Type} : List (String × β) → String → β → List (String × β)
  | [], key, nv => [(key, nv)]
  | (c, v) :: rest, key, nv =>
      if c = key then (c, nv) :: rest else (c, v) :: setA rest key nv

/-- The label a right-operand column gets in the merge result: suffixed
`_new` when the left operand also has it (`suffixes=('', '_new')`). -/
def suffixNew (leftCols : List String) (c : String) : String :=
  if c ∈ leftCols then c ++ "_new" else c

/-- Does a label end in `_new` (a merge temporary)? -/
def endsNew (s : String) : Bool := decide ("_new".toList <:+ s.toList)

/-- The non-key columns the right operand contributes, with suffixing. -/
def rightExtraCols (leftCols rightCols : List String) : List String :=
  (rightCols.filter (fun c => decide (c ∉ keyColumns))).map (suffixNew leftCols)

/-- The non-key cells the right row contributes, under the suffixed labels. -/
def rightExtraPairs (leftCols rightCols : List String) (rr : CRow) : CRow :=
  (rightCols.filter (fun c => decide (c ∉ keyColumns))).map
    (fun c => (suffixNew leftCols c, (getA rr c).getD .null))

/-- Join-key agreement of two rows (pandas merge matches NaN keys too). -/
def rowsMatch (lr rr : CRow) : Bool :=
  keyColumns.all (fun k => decide (getA lr k = getA rr k))

/-- The outer-join rows produced from one left row: one per matching right
row (cross product within a key group), or a single null-padded row when
nothing matches. -/
def emitFor (left right : CTable) (lr : CRow) : List CRow :=
  let ms := right.rows.filter (fun rr => rowsMatch lr rr)
  if ms.isEmpty then
    [lr ++ (rightExtraCols left.cols right.cols).map (fun c => (c, Cell.null))]
  else ms.map (fun rr => lr ++ rightExtraPairs left.cols right.cols rr)

/-- The outer-join rows for right rows with no left match: key cells from
the right row, other left columns null. -/
def rightOnlyRows (left right : CTable) : List CRow :=
  (right.rows.filter (fun rr => !(left.rows.any (fun lr => rowsMatch lr rr)))).map
    (fun rr =>
      left.cols.map (fun c =>
        (c, if decide (c ∈ keyColumns) then (getA rr c).getD .null else Cell.null)) ++
      rightExtraPairs left.cols right.cols rr)

/-- One iteration of the fill loop (lines 73-80) on one row and the current
column-label list: for a non-key right column whose `_new` twin exists,
`merged_df[col] = merged_df[col].fillna(merged_df[new_col])` then drop the
twin. -/
def fillStep (pr : List String × CRow) (c : String) : List String × CRow :=
  if decide (c ∉ keyColumns) && decide ((c ++ "_new") ∈ pr.1) then
    let old := (getA pr.2 c).getD .null
    let nv := if old = .null then (getA pr.2 (c ++ "_new")).getD .null else old
    (pr.1.erase (c ++ "_new"),
     (setA pr.2 c nv).filter (fun p => decide (p.1 ≠ c ++ "_new")))
  else pr

/-- The fill loop over all right columns, on one row. -/
def fillAllRow (cs : List String) (fl : List String) (r : CRow) : CRow :=
  (fl.foldl fillStep (cs, r)).2

/-- The fill loop's effect on the column-label list (row-independent). -/
def fillAllCols (cs : List String) (fl : List String) : List String :=
  (fl.foldl fillStep (cs, [])).1

/-- One pairwise `pd.merge(..., on=key_columns, how='outer',
suffixes=('', '_new'))` followed by the fill loop (lines 63-80).  `pd.merge`
raises `KeyError` when a key column is absent from either operand — there is
no `try` around this loop, so the error is fatal to the call.  (pandas
additionally sorts the outer-join result by key; the claims are
row-order-independent, so the sort is not modelled.) -/
def mergeStepE (left right : CTable) : Except PyErr CTable :=
  if keyColumns.all (fun k => decide (k ∈ left.cols)) &&
      keyColumns.all (fun k => decide (k ∈ right.cols)) then
    let mergedCols := left.cols ++ rightExtraCols left.cols right.cols
    let mergedRows := left.rows.flatMap (emitFor left right) ++ rightOnlyRows left right
    .ok ⟨fillAllCols mergedCols right.cols,
         mergedRows.map (fillAllRow mergedCols right.cols)⟩
  else .error .keyError

/-- The merge fold (`for df in all_dfs`, first table starts the
accumulator). -/
def mergeLoop (acc : CTable) : List CTable → Except PyErr CTable
  | [] => .ok acc
  | df :: rest =>
      match mergeStepE acc df with
      | .ok m => mergeLoop m rest
      | .error e => .error e

/-- `drop_duplicates()` (line 83): keep the first occurrence of each row. -/
def dropDup {α : Type} [DecidableEq α] : List α → List α
  | [] => []
  | x :: rest => x :: dropDup (rest.filter (fun y => decide (y ≠ x)))
termination_by l => l.length
decreasing_by
  exact Nat.lt_succ_of_le (List.length_filter_le _ _)

/-- `merge_csv_from_zips` on the already-extracted tables: fold the merges,
then drop exact-duplicate rows; an empty input list yields the empty
DataFrame. -/
def merge_csv_from_zips (dfs : List CTable) : Except PyErr CTable :=
  match dfs with
  | [] => .ok ⟨[], []⟩
  | d :: rest =>
      match mergeLoop d rest with
      | .error e => .error e
      | .ok t => .ok ⟨t.cols, dropDup t.rows⟩

/-- A table can miss join keys; this is the condition `pd.merge` checks. -/
def hasKeys (t : CTable) : Prop := ∀ k ∈ keyColumns, k ∈ t.cols

/-! Concrete tables for the C3 witness and the C9 counterexample. -/

/-- Key cells shared by the demonstration rows. -/
def demoKeyCells : CRow :=
  [("Date", .str "2024-01-01"), ("Content", .str "v1"), ("Video title", .str "T"),
   ("Video publish time", .str "P"), ("Duration", .num 60)]

/-- First source: the shared key, `Views` null, `Likes` 7. -/
def ctA : CTable :=
  ⟨keyColumns ++ ["Views", "Likes"],
   [demoKeyCells ++ [("Views", Cell.null), ("Likes", .num 7)]]⟩

/-- Second source: the same key, `Views` 5, `Likes` 9. -/
def ctB : CTable :=
  ⟨keyColumns ++ ["Views", "Likes"],
   [demoKeyCells ++ [("Views", .num 5), ("Likes", .num 9)]]⟩

/-- A source lacking the `Duration` key column. -/
def ctNoKey : CTable :=
  ⟨["Date", "Content", "Video title", "Video publish time", "Views"],
   [[("Date", .str "2024-01-01"), ("Content", .str "v2"),
     ("Video title", .str "T2"), ("Video publish time", .str "P2"),
     ("Views", .num 3)]]⟩

/-- Does a call complete normally (as opposed to raising)? -/
def exceptOk {ε α : Type} : Except ε α → Bool
  | .ok _ => true
  | .error _ => false

/-- The reconciliation of `ctA` and `ctB` (used by witnesses). -/
def mergedAB : CTable :=
  match merge_csv_from_zips [ctA, ctB] with
  | .ok t => t
  | .error _ => ⟨[], []⟩

/-- The concatenated output for the duplicated demo input (C8 witness). -/
def demoOut : List (List String × ConvRow) :=
  (process_multiple_jsons demoFiles).getD []

/-! ## The daily pipeline (`scripts/process_youtube_json.py`)

The merged metrics table of `process_json_files`: one row per
video/date key pair (the key columns `Video IDs` and `Dates` are the
dedicated fields `vid`/`date`, never null after an outer join on them),
metric cells as labelled `Option ℚ` values (`none` = NaN). -/

structure DRow where
  vid : String
  date : String
  vals : List (String × Option ℚ)
deriving DecidableEq, Repr

structure DFrame where
  cols : List String
  rows : List DRow
deriving DecidableEq, Repr

/-- The `(Video IDs, metric value)` pairs of one metric column, in row
order — what `df.groupby("Video IDs")[metric]` sees. -/
def pairsOf (df : DFrame) (m : String) : List (String × Option ℚ) :=
  df.rows.map (fun r => (r.vid, (getA r.vals m).join))

/-- One column of the table, in row order. -/
def columnOfD (df : DFrame) (m : String) : List (Option ℚ) :=
  df.rows.map (fun r => (getA r.vals m).join)

/-- `groupby("Video IDs")[metric].cumsum()`: a per-id running sum carried
in an accumulator, NaN cells left NaN and skipped. -/
def cumsumGo (acc : List (String × ℚ)) : List (String × Option ℚ) → List (Option ℚ)
  | [] => []
  | (id, v) :: rest =>
      match v with
      | none => none :: cumsumGo acc rest
      | some x =>
          let s := ((getA acc id).getD 0) + x
          some s :: cumsumGo ((id, s) :: acc) rest

def cumsumCol (l : List (String × Option ℚ)) : List (Option ℚ) := cumsumGo [] l

/-- `df[name] = values`: replace an existing column in place, else append
it. -/
def setColD (df : DFrame) (name : String) (vs : List (Option ℚ)) : DFrame :=
  ⟨if name ∈ df.cols then df.cols else df.cols ++ [name],
   (df.rows.zip vs).map (fun pr => ⟨pr.1.vid, pr.1.date, setA pr.1.vals name pr.2⟩)⟩

/-- `col.endswith('_RUNNING_TOTAL')`. -/
def endsRT (s : String) : Bool := decide ("_RUNNING_TOTAL".toList <:+ s.toList)

/-- The totals loop of `add_running_totals` (lines 212-219): for every
column not itself a running total (the `Video IDs`/`Dates` keys are the
dedicated row fields), assign the grouped cumulative sum to
`{metric}_RUNNING_TOTAL`. -/
def runTotals (df : DFrame) : DFrame :=
  (df.cols.filter (fun c => !endsRT c)).foldl
    (fun acc m => setColD acc (m ++ "_RUNNING_TOTAL") (cumsumCol (pairsOf acc m))) df

/-- The `WATCH_TIME` conversion (lines 207-210): divide by 3,600,000 —
with no rounding. -/
def convertWatchTime (df : DFrame) : DFrame :=
  if "WATCH_TIME" ∈ df.cols then
    ⟨df.cols, df.rows.map (fun r =>
      ⟨r.vid, r.date, r.vals.map (fun p =>
        (p.1, if p.1 = "WATCH_TIME" then p.2.map (fun x => x / 3600000) else p.2))⟩)⟩
  else df

/-- `add_running_totals` (lines 205-221). -/
def add_running_totals (df : DFrame) : DFrame := runTotals (convertWatchTime df)

/-- `combined_df.fillna(0, inplace=True)` (line 200): every NaN metric
cell becomes 0. -/
def fillna0 (df : DFrame) : DFrame :=
  ⟨df.cols, df.rows.map (fun r =>
    ⟨r.vid, r.date, r.vals.map (fun p => (p.1, some (p.2.getD 0)))⟩)⟩

/-- Sum of the non-NaN cells of one id group over the first `n` rows. -/
def groupSum (ps : List (String × Option ℚ)) (vid : String) (n : Nat) : ℚ :=
  (((ps.take n).filter (fun p => decide (p.1 = vid))).filterMap (fun p => p.2)).sum

/-- Sum over the first `n` rows of one id group with NaN read as 0. -/
def groupSumD (ps : List (String × Option ℚ)) (vid : String) (n : Nat) : ℚ :=
  (((ps.take n).filter (fun p => decide (p.1 = vid))).map (fun p => p.2.getD 0)).sum

/-- A one-column table with a single watch-time cell of 1 ms (C6). -/
def demoDF : DFrame := ⟨["WATCH_TIME"], [⟨"v1", "2024-01-01", [("WATCH_TIME", some 1)]⟩]⟩

/-- A three-row, two-video views table (C4 witness). -/
def demoDF4 : DFrame :=
  ⟨["VIEWS"],
   [⟨"v1", "2024-01-01", [("VIEWS", some 3)]⟩,
    ⟨"v1", "2024-01-02", [("VIEWS", some 4)]⟩,
    ⟨"v2", "2024-01-01", [("VIEWS", some 5)]⟩]⟩

/-- A table with a NaN gap for the C10 witness. -/
def demoDF10 : DFrame :=
  ⟨["VIEWS"],
   [⟨"v1", "2024-01-01", [("VIEWS", some 3)]⟩,
    ⟨"v1", "2024-01-02", [("VIEWS", none)]⟩,
    ⟨"v1", "2024-01-03", [("VIEWS", some 4)]⟩]⟩

/-! ## `calculate_video_metrics` (`scripts/all_videos_by_day.py` lines 94-119)

The per-day report's derived rate columns.  pandas runs them in float64:
a division by zero yields a signed infinity (NaN only for 0/0), and
`.fillna(0)` replaces only NaN.  `PVal` carries the special values
explicitly over exact rationals. -/

inductive PVal where
  | nan : PVal
  | pinf : PVal
  | ninf : PVal
  | num (q : ℚ) : PVal
deriving DecidableEq, Repr

def padd : PVal → PVal → PVal
  | .nan, _ => .nan
  | _, .nan => .nan
  | .pinf, .ninf => .nan
  | .ninf, .pinf => .nan
  | .pinf, _ => .pinf
  | _, .pinf => .pinf
  | .ninf, _ => .ninf
  | _, .ninf => .ninf
  | .num a, .num b => .num (a + b)

def pmul : PVal → PVal → PVal
  | .nan, _ => .nan
  | _, .nan => .nan
  | .num a, .num b => .num (a * b)
  | .pinf, .pinf => .pinf
  | .pinf, .ninf => .ninf
  | .ninf, .pinf => .ninf
  | .ninf, .ninf => .pinf
  | .pinf, .num b => if 0 < b then .pinf else if b < 0 then .ninf else .nan
  | .num a, .pinf => if 0 < a then .pinf else if a < 0 then .ninf else .nan
  | .ninf, .num b => if 0 < b then .ninf else if b < 0 then .pinf else .nan
  | .num a, .ninf => if 0 < a then .ninf else if a < 0 then .pinf else .nan

def pdiv : PVal → PVal → PVal
  | .nan, _ => .nan
  | _, .nan => .nan
  | .pinf, .pinf => .nan
  | .pinf, .ninf => .nan
  | .ninf, .pinf => .nan
  | .ninf, .ninf => .nan
  | .num _, .pinf => .num 0
  | .num _, .ninf => .num 0
  | .pinf, .num b => if b < 0 then .ninf else .pinf
  | .ninf, .num b => if b < 0 then .pinf else .ninf
  | .num a, .num b =>
      if b = 0 then (if a = 0 then .nan else if 0 < a then .pinf else .ninf)
      else .num (a / b)

/-- `.fillna(0)`: NaN (the float carrier of SQL NULL) becomes 0; the
infinities are untouched. -/
def pfill0 : PVal → PVal
  | .nan => .num 0
  | v => v

/-- One fetched row after the date arithmetic: the SQL metric columns (NULL
as `nan`) and the computed `DaysSincePublish`. -/
structure VRow where
  views : PVal
  estimatedMinutesWatched : PVal
  comments : PVal
  likes : PVal
  dislikes : PVal
  shares : PVal
  subscribersGained : PVal
  subscribersLost : PVal
  days : ℤ
deriving DecidableEq, Repr

/-- `df['views'] / df['DaysSincePublish'].replace(0, 1)` (line 117). -/
def viewsPerDay (r : VRow) : PVal :=
  pdiv r.views (.num (if r.days = 0 then 1 else (r.days : ℚ)))

/-- `df['comments'] + df['likes'] + df['shares']`. -/
def engNum (r : VRow) : PVal := padd (padd r.comments r.likes) r.shares

/-- `((comments + likes + shares) / views * 100).fillna(0)` (line 118). -/
def engagementRate (r : VRow) : PVal :=
  pfill0 (pmul (pdiv (engNum r) r.views) (.num 100))

/-- `(estimatedMinutesWatched / views).fillna(0)` (line 119). -/
def retentionRate (r : VRow) : PVal :=
  pfill0 (pdiv r.estimatedMinutesWatched r.views)

/-- A row with zero views but one comment (C7 counterexample). -/
def demoVRow : VRow :=
  ⟨.num 0, .num 40, .num 1, .num 0, .num 0, .num 0, .num 0, .num 0, 5⟩

/-- An ordinary row (C7 witness). -/
def demoVRow2 : VRow :=
  ⟨.num 50, .num 20, .num 2, .num 3, .num 0, .num 1, .num 0, .num 0, 5⟩

end YTA

namespace YTA

/-! ## Theorems for claim C2 -/

theorem segStep_ok_resolve (d : Json) (sg : Seg) (v' : Json) (rest : List Seg)
    (h : segStep d sg = .ok v') :
    resolveAmended d (sg :: rest) = resolveAmended v' rest := by
  cases sg with
  | field name =>
    cases d with
    | obj fs =>
      simp only [segStep, pyGetField] at h
      cases hl : jlookup fs name with
      | none => rw [hl] at h; exact absurd h (by simp)
      | some w =>
        rw [hl] at h
        injection h with h
        subst h
        simp [resolveAmended, hl]
    | null => exact absurd h (by simp [segStep, pyGetField])
    | bool b => exact absurd h (by simp [segStep, pyGetField])
    | num q => exact absurd h (by simp [segStep, pyGetField])
    | str s => exact absurd h (by simp [segStep, pyGetField])
    | arr xs => exact absurd h (by simp [segStep, pyGetField])
  | indexed name i =>
    cases d with
    | obj fs =>
      simp only [segStep, pyGetField] at h
      cases hl : jlookup fs name with
      | none => rw [hl] at h; exact absurd h (by simp)
      | some w =>
        rw [hl] at h
        cases w with
        | arr xs =>
          simp only [pyGetIndex] at h
          cases hx : xs.get? i with
          | none => rw [hx] at h; exact absurd h (by simp)
          | some e =>
            rw [hx] at h
            injection h with h
            subst h
            have hx' : xs[i]? = some e := by
              rw [← List.get?_eq_getElem?]; exact hx
            simp [resolveAmended, hl, hx']
        | str s =>
          simp only [pyGetIndex] at h
          by_cases hi : i < s.toList.length
          · rw [if_pos hi] at h
            injection h with h
            subst h
            have hi' : i < s.length := hi
            simp [resolveAmended, hl, hi, hi']
          · rw [if_neg hi] at h
            exact absurd h (by simp)
        | null => exact absurd h (by simp [pyGetIndex])
        | bool b => exact absurd h (by simp [pyGetIndex])
        | num q => exact absurd h (by simp [pyGetIndex])
        | obj gs => exact absurd h (by simp [pyGetIndex])
    | null => exact absurd h (by simp [segStep, pyGetField])
    | bool b => exact absurd h (by simp [segStep, pyGetField])
    | num q => exact absurd h (by simp [segStep, pyGetField])
    | str s => exact absurd h (by simp [segStep, pyGetField])
    | arr xs => exact absurd h (by simp [segStep, pyGetField])

theorem segStep_error_resolve (d : Json) (sg : Seg) (e : PyErr) (rest : List Seg)
    (h : segStep d sg = .error e) :
    (e = .keyError ∨ e = .indexError ∨ e = .typeError) ∧
      resolveAmended d (sg :: rest) = none := by
  cases sg with
  | field name =>
    cases d with
    | obj fs =>
      simp only [segStep, pyGetField] at h
      cases hl : jlookup fs name with
      | none =>
        rw [hl] at h
        injection h with h
        subst h
        exact ⟨Or.inl rfl, by simp [resolveAmended, hl]⟩
      | some w => rw [hl] at h; exact absurd h (by simp)
    | null =>
      simp only [segStep, pyGetField] at h
      injection h with h; subst h
      exact ⟨Or.inr (Or.inr rfl), rfl⟩
    | bool b =>
      simp only [segStep, pyGetField] at h
      injection h with h; subst h
      exact ⟨Or.inr (Or.inr rfl), rfl⟩
    | num q =>
      simp only [segStep, pyGetField] at h
      injection h with h; subst h
      exact ⟨Or.inr (Or.inr rfl), rfl⟩
    | str s =>
      simp only [segStep, pyGetField] at h
      injection h with h; subst h
      exact ⟨Or.inr (Or.inr rfl), rfl⟩
    | arr xs =>
      simp only [segStep, pyGetField] at h
      injection h with h; subst h
      exact ⟨Or.inr (Or.inr rfl), rfl⟩
  | indexed name i =>
    cases d with
    | obj fs =>
      simp only [segStep, pyGetField] at h
      cases hl : jlookup fs name with
      | none =>
        rw [hl] at h
        injection h with h
        subst h
        exact ⟨Or.inl rfl, by simp [resolveAmended, hl]⟩
      | some w =>
        rw [hl] at h
        cases w with
        | arr xs =>
          simp only [pyGetIndex] at h
          cases hx : xs.get? i with
          | none =>
            rw [hx] at h
            injection h with h
            subst h
            refine ⟨Or.inr (Or.inl rfl), ?_⟩
            have hx' : xs[i]? = none := by
              rw [← List.get?_eq_getElem?]; exact hx
            simp [resolveAmended, hl, hx']
          | some el => rw [hx] at h; exact absurd h (by simp)
        | str s =>
          simp only [pyGetIndex] at h
          by_cases hi : i < s.toList.length
          · rw [if_pos hi] at h; exact absurd h (by simp)
          · rw [if_neg hi] at h
            injection h with h
            subst h
            have hi' : ¬ i < s.length := hi
            exact ⟨Or.inr (Or.inl rfl), by simp [resolveAmended, hl, hi, hi']⟩
        | null =>
          simp only [pyGetIndex] at h
          injection h with h; subst h
          exact ⟨Or.inr (Or.inr rfl), by simp [resolveAmended, hl]⟩
        | bool b =>
          simp only [pyGetIndex] at h
          injection h with h; subst h
          exact ⟨Or.inr (Or.inr rfl), by simp [resolveAmended, hl]⟩
        | num q =>
          simp only [pyGetIndex] at h
          injection h with h; subst h
          exact ⟨Or.inr (Or.inr rfl), by simp [resolveAmended, hl]⟩
        | obj gs =>
          simp only [pyGetIndex] at h
          injection h with h; subst h
          exact ⟨Or.inl rfl, by simp [resolveAmended, hl]⟩
    | null =>
      simp only [segStep, pyGetField] at h
      injection h with h; subst h
      exact ⟨Or.inr (Or.inr rfl), rfl⟩
    | bool b =>
      simp only [segStep, pyGetField] at h
      injection h with h; subst h
      exact ⟨Or.inr (Or.inr rfl), rfl⟩
    | num q =>
      simp only [segStep, pyGetField] at h
      injection h with h; subst h
      exact ⟨Or.inr (Or.inr rfl), rfl⟩
    | str s =>
      simp only [segStep, pyGetField] at h
      injection h with h; subst h
      exact ⟨Or.inr (Or.inr rfl), rfl⟩
    | arr xs =>
      simp only [segStep, pyGetField] at h
      injection h with h; subst h
      exact ⟨Or.inr (Or.inr rfl), rfl⟩

theorem resolveAmended_spec : ∀ (p : List Seg) (d : Json),
    extract_value_from_path d p = .ok (resolveAmended d p) := by
  intro p
  induction p with
  | nil => intro d; rfl
  | cons sg rest ih =>
    intro d
    cases hs : segStep d sg with
    | ok v' =>
      rw [segStep_ok_resolve d sg v' rest hs]
      have : extractLoop d (sg :: rest) = extractLoop v' rest := by
        simp [extractLoop, hs]
      simp only [extract_value_from_path, this]
      have := ih v'
      simpa [extract_value_from_path] using this
    | error e =>
      obtain ⟨he, hr⟩ := segStep_error_resolve d sg e rest hs
      rw [hr]
      have : extractLoop d (sg :: rest) = .error e := by
        simp [extractLoop, hs]
      simp only [extract_value_from_path, this]
      rcases he with h | h | h <;> subst h <;> rfl

/-- C2 counterexample: on the document `{"a": "hi"}` and well-formed path
`a[0]`, the indexed value is the scalar string `"hi"` — per the claim's
failure taxonomy ("value not a sequence where an index is applied") the
resolver should return NotFound, but `extract_value_from_path` returns the
character `"h"`. -/
theorem C2_counterexample :
    extract_value_from_path strIndexDoc strIndexPath = .ok (some (.str "h")) ∧
      resolveClaim strIndexDoc strIndexPath = none :=
  ⟨rfl, rfl⟩

/-- C2 (amended): for every document and well-formed path,
`extract_value_from_path` never raises, and it returns exactly the value of
the segment-wise resolution in which maps are field-addressable and both
sequences *and strings* are index-addressable (a string yielding its
character at the index); every other structural mismatch — absent key,
non-map where a field lookup is needed, non-sequence-non-string or
out-of-range index — yields NotFound. -/
theorem C2_amended_resolution : ∀ (d : Json) (p : List Seg),
    (∀ e, extract_value_from_path d p ≠ .error e) ∧
      extract_value_from_path d p = .ok (resolveAmended d p) := by
  intro d p
  refine ⟨?_, resolveAmended_spec p d⟩
  intro e h
  rw [resolveAmended_spec p d] at h
  exact Except.noConfusion h

/-! ## Theorems for claim C1 -/

theorem metricCells_arr (mats : List (List Json)) (i : Nat) :
    metricCellsFor (mats.map Json.arr) i =
      .ok (mats.map (fun mat => mat.getD i .null)) := by
  induction mats with
  | nil => rfl
  | cons m ms ih =>
    simp only [List.map_cons, metricCellsFor, pyLen]
    by_cases h : i < m.length
    · rw [if_pos h]
      cases hg : m.get? i with
      | none =>
        rw [List.get?_eq_none] at hg
        omega
      | some v =>
        have hg' : m[i]? = some v := by
          rw [← List.get?_eq_getElem?]
          exact hg
        have hv : pyGetIndex (.arr m) i = .ok v := by
          simp [pyGetIndex, hg']
        rw [hv, ih]
        have : m.getD i .null = v := by
          rw [List.getD_eq_getD_get?, hg]
          rfl
        rw [this]
    · rw [if_neg h]
      rw [ih]
      have : m.getD i .null = .null := by
        rw [List.getD_eq_getD_get?, List.get?_eq_none.mpr (by omega)]
        rfl
      rw [this]

theorem process_rows_closed (meta : List (Json × MetaEntry))
    (mats : List (List Json)) (period src : String) :
    ∀ (ids : List Json) (start : Nat),
      process_rows meta (mats.map Json.arr) period src ids start =
        .ok ((List.range ids.length).map (fun k =>
          ⟨ids.getD k .null, titleOf meta (ids.getD k .null),
           pubOf meta (ids.getD k .null), period, src,
           mats.map (fun mat => mat.getD (start + k) .null)⟩)) := by
  intro ids
  induction ids with
  | nil => intro start; rfl
  | cons vid rest ih =>
    intro start
    simp only [process_rows, metricCells_arr, ih (start + 1)]
    rw [List.length_cons, List.range_succ_eq_map, List.map_cons, List.map_map]
    simp only [Function.comp, List.getD_cons_zero, List.getD_cons_succ, Nat.add_zero]
    refine congrArg Except.ok (congrArg₂ List.cons rfl (List.map_congr_left ?_))
    intro k _
    simp only [Function.comp_apply, List.getD_cons_succ]
    have h3 : start + 1 + k = start + (k + 1) := by omega
    rw [h3]

/-- C1 counterexample: on `demoDoc` (2 video ids, views `[10,20,30]`, a 24h
config) the assembler emits exactly one row per video — 2 rows, both
labelled `24h`, views taken at position `i` — whereas the claim's
`i+p` offset rule prescribes 3 rows including a `7d` row with views taken at
position `i+p`.  The claim is false of `process_json_file`'s assembly. -/
theorem C1_counterexample :
    assemble_of "demo.json" demoDoc = .ok (some [demoRow1, demoRow2]) ∧
    [demoRow1, demoRow2].length = 2 ∧
    (claimRows "demo.json" demoDoc []).length = 3 ∧
    [demoRow1, demoRow2].map FDRow.time_period = ["24h", "24h"] ∧
    (claimRows "demo.json" demoDoc []).map FDRow.time_period = ["24h", "7d", "24h"] ∧
    [demoRow1, demoRow2] ≠ claimRows "demo.json" demoDoc [] := by
  refine ⟨rfl, rfl, rfl, rfl, rfl, ?_⟩
  intro h
  have hl := congrArg List.length h
  rw [show (claimRows "demo.json" demoDoc []).length = 3 from rfl] at hl
  simp at hl

/-- C1 (amended): in the "first N days" assembler, each video contributes
exactly one row per document: the row for the video at index `k` is always
emitted, carries the single document-level period label, and takes each
metric array's value at position `k` — `None` when `k` is out of that
array's bounds; rows whose metric cells are all `None` are then dropped.
(Stated over array-valued metric columns, the only shape the extraction
produces for real documents; `start = 0` is the `enumerate` origin.) -/
theorem C1_amended_one_row_per_video :
    ∀ (meta : List (Json × MetaEntry)) (mats : List (List Json))
      (period src : String) (ids : List Json),
      assembleRows meta (mats.map Json.arr) period src ids =
        .ok (((List.range ids.length).map (fun k =>
          (⟨ids.getD k .null, titleOf meta (ids.getD k .null),
            pubOf meta (ids.getD k .null), period, src,
            mats.map (fun mat => mat.getD k .null)⟩ : FDRow))).filter
          (fun r => r.metrics.any (fun c => !c.isNull))) := by
  intro meta mats period src ids
  unfold assembleRows
  rw [process_rows_closed meta mats period src ids 0]
  unfold dropAllNull
  refine congrArg Except.ok (congrArg _ (List.map_congr_left ?_))
  intro k _
  simp only [Nat.zero_add]

/-! ## Theorems for claim C5 -/

/-- C5: metric column naming is all-or-nothing — the headers are the ten
discovered names exactly when every one of the ten name-discovery paths
yields a truthy (non-empty) value, and otherwise are the ten hardcoded
fallback names; no mixed schema exists. -/
theorem C5_all_or_nothing : ∀ data : Json,
    metricHeadersOf data =
      if ((List.range fallbackNames.length).map (nameAt data)).all Json.truthy
      then (List.range fallbackNames.length).map (nameAt data)
      else fallbackNames.map Json.str := by
  intro data
  by_cases hall : ((List.range fallbackNames.length).map (nameAt data)).all Json.truthy
  · rw [if_pos hall]
    have hfl : collectNames data = (List.range fallbackNames.length).map (nameAt data) := by
      unfold collectNames
      exact List.filter_eq_self.mpr (List.all_eq_true.mp hall)
    unfold metricHeadersOf
    rw [hfl]
    rw [if_pos ⟨by simp, hall⟩]
  · rw [if_neg hall]
    unfold metricHeadersOf
    rw [if_neg]
    intro hc
    apply hall
    have hsub : List.Sublist (collectNames data)
        ((List.range fallbackNames.length).map (nameAt data)) :=
      List.filter_sublist _
    have heq : collectNames data = (List.range fallbackNames.length).map (nameAt data) :=
      hsub.eq_of_length (by rw [hc.1]; simp)
    apply List.all_eq_true.mpr
    intro x hx
    rw [← heq] at hx
    exact List.of_mem_filter hx

/-! ## Row/label lemmas for the merge-with-fill model -/

theorem getA_setA_self {β : Type} (r : List (String × β)) (key : String) (nv : β) :
    getA (setA r key nv) key = some nv := by
  induction r with
  | nil => simp [setA, getA]
  | cons p rest ih =>
    obtain ⟨c, v⟩ := p
    by_cases h : c = key
    · simp [setA, h, getA]
    · simp [setA, h, getA, ih]

theorem getA_setA_ne {β : Type} (r : List (String × β)) (key c : String) (nv : β)
    (h : key ≠ c) :
    getA (setA r key nv) c = getA r c := by
  induction r with
  | nil =>
    simp only [setA, getA]
    rw [if_neg h]
  | cons p rest ih =>
    obtain ⟨c0, v⟩ := p
    by_cases h0 : c0 = key
    · subst h0
      simp only [setA, if_pos rfl, getA]
      rw [if_neg h, if_neg h]
    · simp only [setA, if_neg h0, getA]
      by_cases hc : c0 = c
      · rw [if_pos hc, if_pos hc]
      · rw [if_neg hc, if_neg hc]
        exact ih

theorem getA_filter_ne {β : Type} (r : List (String × β)) (a c : String) (h : c ≠ a) :
    getA (r.filter (fun p => decide (p.1 ≠ a))) c = getA r c := by
  induction r with
  | nil => rfl
  | cons p rest ih =>
    obtain ⟨c0, v⟩ := p
    simp only [List.filter_cons]
    by_cases h0 : c0 = a
    · rw [if_neg (by simp [h0])]
      rw [ih]
      simp only [getA]
      rw [if_neg (fun hc : c0 = c => h (hc ▸ h0))]
    · rw [if_pos (by simp [h0])]
      simp only [getA]
      by_cases hc : c0 = c
      · rw [if_pos hc, if_pos hc]
      · rw [if_neg hc, if_neg hc]
        exact ih

theorem getA_append_left {β : Type} (r1 r2 : List (String × β)) (c : String) (v : β)
    (h : getA r1 c = some v) : getA (r1 ++ r2) c = some v := by
  induction r1 with
  | nil => exact absurd h (by simp [getA])
  | cons p rest ih =>
    obtain ⟨c0, v0⟩ := p
    simp only [getA, List.cons_append] at h ⊢
    by_cases hc : c0 = c
    · rwa [if_pos hc] at h ⊢
    · rw [if_neg hc] at h ⊢
      exact ih h

theorem getA_append_right {β : Type} (r1 r2 : List (String × β)) (c : String)
    (h : getA r1 c = none) :
    getA (r1 ++ r2) c = getA r2 c := by
  induction r1 with
  | nil => rfl
  | cons p rest ih =>
    obtain ⟨c0, v0⟩ := p
    simp only [getA, List.cons_append] at h ⊢
    by_cases hc : c0 = c
    · rw [if_pos hc] at h
      exact absurd h (by simp)
    · rw [if_neg hc] at h ⊢
      exact ih h

theorem endsNew_append (c : String) : endsNew (c ++ "_new") = true := by
  unfold endsNew
  rw [decide_eq_true_eq]
  have h : (c ++ "_new").toList = c.toList ++ "_new".toList := String.data_append c "_new"
  rw [h]
  exact List.suffix_append _ _

theorem not_endsNew_ne (c : String) (h : endsNew c = false) (y : String) :
    c ≠ y ++ "_new" := by
  intro he
  rw [he, endsNew_append] at h
  exact Bool.noConfusion h

theorem append_new_inj {c1 c2 : String} (h : c1 ++ "_new" = c2 ++ "_new") :
    c1 = c2 := by
  have hd := congrArg String.data h
  rw [String.data_append, String.data_append] at hd
  exact String.ext (List.append_cancel_right hd)

/-! ## Behaviour of the fill fold -/

theorem fill_untouched : ∀ (fl : List String) (cs : List String) (r : CRow) (c : String),
    (∀ c2 ∈ fl, c2 ≠ c ∧ c ≠ c2 ++ "_new") →
    getA (fl.foldl fillStep (cs, r)).2 c = getA r c := by
  intro fl
  induction fl with
  | nil => intro cs r c _; rfl
  | cons c0 fl' ih =>
    intro cs r c hno
    obtain ⟨hne, hnnew⟩ := hno c0 (List.mem_cons_self _ _)
    have hrest : ∀ c2 ∈ fl', c2 ≠ c ∧ c ≠ c2 ++ "_new" :=
      fun c2 h2 => hno c2 (List.mem_cons_of_mem _ h2)
    simp only [List.foldl_cons]
    by_cases hcond : (decide (c0 ∉ keyColumns) && decide ((c0 ++ "_new") ∈ cs)) = true
    · have hstep : fillStep (cs, r) c0 =
          (cs.erase (c0 ++ "_new"),
           (setA r c0 (if (getA r c0).getD .null = .null
              then (getA r (c0 ++ "_new")).getD .null
              else (getA r c0).getD .null)).filter
             (fun p => decide (p.1 ≠ c0 ++ "_new"))) := by
        simp only [fillStep, hcond, if_true]
      rw [hstep, ih _ _ _ hrest, getA_filter_ne _ _ _ hnnew, getA_setA_ne _ _ _ _ hne]
    · have hstep : fillStep (cs, r) c0 = (cs, r) := by
        simp only [fillStep, hcond]
        rw [if_neg (by simp only [Bool.not_eq_true] at hcond; simp [hcond])]
      rw [hstep, ih _ _ _ hrest]

theorem fill_preserve : ∀ (fl : List String) (cs : List String) (r : CRow)
    (c : String) (v : Cell),
    (∀ y, c ≠ y ++ "_new") → getA r c = some v → v ≠ .null →
    getA (fl.foldl fillStep (cs, r)).2 c = some v := by
  intro fl
  induction fl with
  | nil => intro cs r c v _ hv _; exact hv
  | cons c0 fl' ih =>
    intro cs r c v hno hv hnn
    simp only [List.foldl_cons]
    by_cases hcond : (decide (c0 ∉ keyColumns) && decide ((c0 ++ "_new") ∈ cs)) = true
    · have hstep : fillStep (cs, r) c0 =
          (cs.erase (c0 ++ "_new"),
           (setA r c0 (if (getA r c0).getD .null = .null
              then (getA r (c0 ++ "_new")).getD .null
              else (getA r c0).getD .null)).filter
             (fun p => decide (p.1 ≠ c0 ++ "_new"))) := by
        simp only [fillStep, hcond, if_true]
      rw [hstep]
      apply ih
      · exact hno
      · rw [getA_filter_ne _ _ _ (hno c0)]
        by_cases h0 : c0 = c
        · subst h0
          rw [hv]
          have : (some v).getD Cell.null = v := rfl
          rw [this, if_neg hnn]
          exact getA_setA_self _ _ _
        · rw [getA_setA_ne _ _ _ _ h0]
          exact hv
      · exact hnn
    · have hstep : fillStep (cs, r) c0 = (cs, r) := by
        simp only [fillStep, hcond]
        rw [if_neg (by simp only [Bool.not_eq_true] at hcond; simp [hcond])]
      rw [hstep]
      exact ih _ _ _ _ hno hv hnn

theorem fill_sets_gap : ∀ (fl : List String) (cs : List String) (r : CRow) (c : String),
    c ∈ fl → fl.Nodup → (∀ x ∈ fl, endsNew x = false) → endsNew c = false →
    c ∉ keyColumns → (c ++ "_new") ∈ cs → getA r c = some .null →
    getA (fl.foldl fillStep (cs, r)).2 c = some ((getA r (c ++ "_new")).getD .null) := by
  intro fl
  induction fl with
  | nil => intro cs r c hc; exact absurd hc (List.not_mem_nil _)
  | cons c0 fl' ih =>
    intro cs r c hc hnd hends hcends hckey hcnew hr
    simp only [List.foldl_cons]
    set nv := (if (getA r c0).getD Cell.null = Cell.null
        then (getA r (c0 ++ "_new")).getD Cell.null
        else (getA r c0).getD Cell.null) with hnv
    set row2 := (setA r c0 nv).filter (fun p => decide (p.1 ≠ c0 ++ "_new")) with hrow2
    by_cases h0 : c0 = c
    · subst h0
      have hnotin : c0 ∉ fl' := (List.nodup_cons.mp hnd).1
      have hcond : (decide (c0 ∉ keyColumns) && decide ((c0 ++ "_new") ∈ cs)) = true := by
        simp [hckey, hcnew]
      have hstep : fillStep (cs, r) c0 = (cs.erase (c0 ++ "_new"), row2) := by
        simp only [fillStep, hcond, if_true, hrow2, hnv]
      rw [hstep]
      rw [fill_untouched fl' (cs.erase (c0 ++ "_new")) row2 c0
        (fun c2 h2 => ⟨fun he => hnotin (he ▸ h2), not_endsNew_ne c0 hcends c2⟩)]
      rw [hrow2, getA_filter_ne _ _ _ (not_endsNew_ne c0 hcends c0)]
      rw [getA_setA_self, hnv, hr]
      have hval : (some Cell.null).getD Cell.null = Cell.null := rfl
      rw [hval, if_pos rfl]
    · have hc' : c ∈ fl' := by
        rcases List.mem_cons.mp hc with he | hm
        · exact absurd he.symm h0
        · exact hm
      have hnd' : fl'.Nodup := (List.nodup_cons.mp hnd).2
      have hends' : ∀ x ∈ fl', endsNew x = false :=
        fun x hx => hends x (List.mem_cons_of_mem _ hx)
      have h0ends : endsNew c0 = false := hends c0 (List.mem_cons_self _ _)
      by_cases hcond : (decide (c0 ∉ keyColumns) && decide ((c0 ++ "_new") ∈ cs)) = true
      · have hstep : fillStep (cs, r) c0 = (cs.erase (c0 ++ "_new"), row2) := by
          simp only [fillStep, hcond, if_true, hrow2, hnv]
        rw [hstep]
        have hne_new : c ++ "_new" ≠ c0 ++ "_new" := fun he => h0 (append_new_inj he).symm
        have hr' : getA row2 c = some Cell.null := by
          rw [hrow2, getA_filter_ne _ _ _ (not_endsNew_ne c hcends c0),
            getA_setA_ne _ _ _ _ h0]
          exact hr
        have hrnew : getA row2 (c ++ "_new") = getA r (c ++ "_new") := by
          rw [hrow2, getA_filter_ne _ _ _ hne_new,
            getA_setA_ne _ _ _ _ (not_endsNew_ne c0 h0ends c)]
        rw [ih (cs.erase (c0 ++ "_new")) row2 c hc' hnd' hends' hcends hckey
          ((List.mem_erase_of_ne hne_new).mpr hcnew) hr', hrnew]
      · have hstep : fillStep (cs, r) c0 = (cs, r) := by
          simp only [fillStep, hcond]
          rw [if_neg (by simp only [Bool.not_eq_true] at hcond; simp [hcond])]
        rw [hstep]
        exact ih cs r c hc' hnd' hends' hcends hckey hcnew hr

theorem getA_extras (leftCols rcols : List String) (rr : CRow) (c : String)
    (hmem : c ∈ rcols) (hkey : c ∉ keyColumns) (hleft : c ∈ leftCols)
    (hends : ∀ x ∈ rcols, endsNew x = false) :
    getA (rightExtraPairs leftCols rcols rr) (c ++ "_new") =
      some ((getA rr c).getD .null) := by
  induction rcols with
  | nil => exact absurd hmem (List.not_mem_nil _)
  | cons c0 rest ih =>
    have hends' : ∀ x ∈ rest, endsNew x = false :=
      fun x hx => hends x (List.mem_cons_of_mem _ hx)
    unfold rightExtraPairs
    simp only [List.filter_cons]
    by_cases hk0 : c0 ∈ keyColumns
    · rw [if_neg (by simp [hk0])]
      have hne : c ≠ c0 := fun he => hkey (he ▸ hk0)
      have hmem' : c ∈ rest := by
        rcases List.mem_cons.mp hmem with he | hm
        · exact absurd he hne
        · exact hm
      exact ih hmem' hends'
    · rw [if_pos (by simp [hk0])]
      simp only [List.map_cons, getA]
      by_cases h0 : c0 = c
      · subst h0
        rw [if_pos (by unfold suffixNew; rw [if_pos hleft])]
      · have hsne : suffixNew leftCols c0 ≠ c ++ "_new" := by
          unfold suffixNew
          by_cases hl0 : c0 ∈ leftCols
          · rw [if_pos hl0]
            exact fun he => h0 (append_new_inj he)
          · rw [if_neg hl0]
            exact not_endsNew_ne c0 (hends c0 (List.mem_cons_self _ _)) c
        rw [if_neg hsne]
        have hmem' : c ∈ rest := by
          rcases List.mem_cons.mp hmem with he | hm
          · exact absurd he.symm h0
          · exact hm
        exact ih hmem' hends'

theorem new_mem_extraCols (leftCols rcols : List String) (c : String)
    (hmem : c ∈ rcols) (hkey : c ∉ keyColumns) (hleft : c ∈ leftCols) :
    (c ++ "_new") ∈ rightExtraCols leftCols rcols := by
  unfold rightExtraCols
  have hf : c ∈ rcols.filter (fun x => decide (x ∉ keyColumns)) :=
    List.mem_filter.mpr ⟨hmem, by simp [hkey]⟩
  have := List.mem_map_of_mem (suffixNew leftCols) hf
  rwa [show suffixNew leftCols c = c ++ "_new" by unfold suffixNew; rw [if_pos hleft]] at this

/-- C3: for every pairwise outer-key merge-with-fill of an accumulated
table with a newly read one, (a) the operation produces exactly the outer
join rows passed through the fill loop, (b) every non-null cell of an
accumulated row survives unchanged into each result row it generates, and
(c) a null cell of an accumulated row in a shared non-key column is filled
from the matching newly-merged row.  Hypotheses: the new table's column
labels are duplicate-free and no real column label ends in the reserved
`_new` suffix (no collision with merge temporaries). -/
theorem C3_fill_never_overwrites :
    ∀ (left right : CTable) (c : String),
      right.cols.Nodup → (∀ x ∈ right.cols, endsNew x = false) →
      endsNew c = false → c ∉ keyColumns →
      ((hasKeys left ∧ hasKeys right) →
        mergeStepE left right = .ok
          ⟨fillAllCols (left.cols ++ rightExtraCols left.cols right.cols) right.cols,
           ((left.rows.flatMap (emitFor left right) ++ rightOnlyRows left right).map
             (fillAllRow (left.cols ++ rightExtraCols left.cols right.cols) right.cols))⟩) ∧
      (∀ lr ∈ left.rows, ∀ r ∈ emitFor left right lr, ∀ v : Cell,
        getA lr c = some v → v ≠ .null →
        getA (fillAllRow (left.cols ++ rightExtraCols left.cols right.cols)
          right.cols r) c = some v) ∧
      (∀ lr ∈ left.rows, ∀ rr ∈ right.rows, rowsMatch lr rr = true →
        getA lr c = some .null → getA lr (c ++ "_new") = none →
        c ∈ right.cols → c ∈ left.cols →
        getA (fillAllRow (left.cols ++ rightExtraCols left.cols right.cols) right.cols
              (lr ++ rightExtraPairs left.cols right.cols rr)) c
          = some ((getA rr c).getD .null)) := by
  intro left right c hnd hends hcends hckey
  refine ⟨?anchor, ?keep, ?fill⟩
  case anchor =>
    rintro ⟨hL, hR⟩
    unfold mergeStepE
    rw [if_pos]
    rw [Bool.and_eq_true]
    constructor
    · exact List.all_eq_true.mpr (fun k hk => decide_eq_true (hL k hk))
    · exact List.all_eq_true.mpr (fun k hk => decide_eq_true (hR k hk))
  case keep =>
    intro lr _ r hrm v hv hnn
    have hrv : getA r c = some v := by
      unfold emitFor at hrm
      by_cases hemp : (right.rows.filter (fun rr => rowsMatch lr rr)).isEmpty
      · rw [if_pos hemp] at hrm
        rcases List.mem_singleton.mp hrm with rfl
        exact getA_append_left _ _ _ _ hv
      · rw [if_neg hemp] at hrm
        obtain ⟨rr, _, rfl⟩ := List.mem_map.mp hrm
        exact getA_append_left _ _ _ _ hv
    exact fill_preserve right.cols _ r c v (not_endsNew_ne c hcends) hrv hnn
  case fill =>
    intro lr _ rr hrr hmatch hnull hnonew hcr hcl
    unfold fillAllRow
    rw [fill_sets_gap right.cols _ _ c hcr hnd hends hcends hckey
      (List.mem_append_right _ (new_mem_extraCols left.cols right.cols c hcr hckey hcl))
      (getA_append_left _ _ _ _ hnull)]
    rw [getA_append_right _ _ _ hnonew]
    rw [getA_extras left.cols right.cols rr c hcr hckey hcl hends]
    rfl

/-- C3 witness: filling `ctA` (Views null, Likes 7) from `ctB` (Views 5,
Likes 9) sets Views to 5 and keeps Likes at 7. -/
theorem C3_witness :
    getA (fillAllRow (ctA.cols ++ rightExtraCols ctA.cols ctB.cols) ctB.cols
        ((demoKeyCells ++ [("Views", Cell.null), ("Likes", .num 7)]) ++
          rightExtraPairs ctA.cols ctB.cols
            (demoKeyCells ++ [("Views", .num 5), ("Likes", .num 9)])))
      "Views" = some (.num 5) ∧
    getA (fillAllRow (ctA.cols ++ rightExtraCols ctA.cols ctB.cols) ctB.cols
        ((demoKeyCells ++ [("Views", Cell.null), ("Likes", .num 7)]) ++
          rightExtraPairs ctA.cols ctB.cols
            (demoKeyCells ++ [("Views", .num 5), ("Likes", .num 9)])))
      "Likes" = some (.num 7) := by
  constructor
  · have h := (C3_fill_never_overwrites ctA ctB "Views" (by decide) (by decide)
      (by decide) (by decide)).2.2
      (demoKeyCells ++ [("Views", Cell.null), ("Likes", .num 7)]) (by decide)
      (demoKeyCells ++ [("Views", .num 5), ("Likes", .num 9)]) (by decide)
      (by decide) (by decide) (by decide) (by decide) (by decide)
    rw [h]
    decide
  · have h := (C3_fill_never_overwrites ctA ctB "Likes" (by decide) (by decide)
      (by decide) (by decide)).2.1
      (demoKeyCells ++ [("Views", Cell.null), ("Likes", .num 7)]) (by decide)
      ((demoKeyCells ++ [("Views", Cell.null), ("Likes", .num 7)]) ++
        rightExtraPairs ctA.cols ctB.cols
          (demoKeyCells ++ [("Views", .num 5), ("Likes", .num 9)]))
      ?hmem (.num 7) (by decide) (by decide)
    · exact h
    · show _ ∈ emitFor ctA ctB _
      decide

/-! ## Theorems for claim C9 -/

theorem key_not_new (k : String) (hk : k ∈ keyColumns) (c : String) :
    k ≠ c ++ "_new" := by
  have hor : k = "Date" ∨ k = "Content" ∨ k = "Video title" ∨
      k = "Video publish time" ∨ k = "Duration" := by
    simpa [keyColumns] using hk
  have hke : endsNew k = false := by
    rcases hor with rfl | rfl | rfl | rfl | rfl <;> decide
  exact not_endsNew_ne k hke c

theorem foldCols_keys : ∀ (fl : List String) (pr : List String × CRow),
    (∀ k ∈ keyColumns, k ∈ pr.1) →
    ∀ k ∈ keyColumns, k ∈ (List.foldl fillStep pr fl).1 := by
  intro fl
  induction fl with
  | nil => intro pr h k hk; exact h k hk
  | cons c0 fl' ih =>
    intro pr h k hk
    simp only [List.foldl_cons]
    apply ih
    intro k' hk'
    unfold fillStep
    by_cases hcond : (decide (c0 ∉ keyColumns) && decide ((c0 ++ "_new") ∈ pr.1)) = true
    · rw [if_pos hcond]
      exact (List.mem_erase_of_ne (key_not_new k' hk' c0)).mpr (h k' hk')
    · rw [if_neg hcond]
      exact h k' hk'
    · exact hk

theorem mergeStepE_missing (left right : CTable)
    (h : ¬ hasKeys left ∨ ¬ hasKeys right) :
    mergeStepE left right = .error .keyError := by
  unfold mergeStepE
  rw [if_neg]
  intro hb
  rw [Bool.and_eq_true] at hb
  rcases h with hl | hr
  · exact hl (fun k hk => of_decide_eq_true (List.all_eq_true.mp hb.1 k hk))
  · exact hr (fun k hk => of_decide_eq_true (List.all_eq_true.mp hb.2 k hk))

theorem mergeLoop_missing : ∀ (l : List CTable) (acc : CTable),
    ((¬ hasKeys acc ∧ l ≠ []) ∨ ∃ df ∈ l, ¬ hasKeys df) →
    exceptOk (mergeLoop acc l) = false := by
  intro l
  induction l with
  | nil =>
    intro acc h
    rcases h with ⟨_, hne⟩ | ⟨df, hdf, _⟩
    · exact absurd rfl hne
    · exact absurd hdf (List.not_mem_nil _)
  | cons df rest ih =>
    intro acc h
    by_cases hacc : hasKeys acc
    · by_cases hdf : hasKeys df
      · have hcond : (keyColumns.all (fun k => decide (k ∈ acc.cols)) &&
            keyColumns.all (fun k => decide (k ∈ df.cols))) = true := by
          rw [Bool.and_eq_true]
          exact ⟨List.all_eq_true.mpr (fun k hk => decide_eq_true (hacc k hk)),
                 List.all_eq_true.mpr (fun k hk => decide_eq_true (hdf k hk))⟩
        have hstep : mergeStepE acc df = .ok
            ⟨fillAllCols (acc.cols ++ rightExtraCols acc.cols df.cols) df.cols,
             ((acc.rows.flatMap (emitFor acc df) ++ rightOnlyRows acc df).map
               (fillAllRow (acc.cols ++ rightExtraCols acc.cols df.cols) df.cols))⟩ := by
          unfold mergeStepE
          rw [if_pos hcond]
        simp only [mergeLoop]
        rw [hstep]
        apply ih
        rcases h with ⟨hna, _⟩ | ⟨df', hmem, hnk⟩
        · exact absurd hacc hna
        · rcases List.mem_cons.mp hmem with rfl | hm
          · exact absurd hdf hnk
          · exact Or.inr ⟨df', hm, hnk⟩
      · have hstep := mergeStepE_missing acc df (Or.inr hdf)
        simp only [mergeLoop]
        rw [hstep]
        rfl
    · have hstep := mergeStepE_missing acc df (Or.inl hacc)
      simp only [mergeLoop]
      rw [hstep]
      rfl

/-- C9 counterexample: with a second source table lacking the `Duration`
key column, the whole `merge_csv_from_zips` call raises (an uncaught
`KeyError` from `pd.merge`) — the merge step is not skipped and the run
produces no output, contradicting the claim. -/
theorem C9_counterexample :
    merge_csv_from_zips [ctA, ctNoKey] = .error .keyError := rfl

/-- C9 (amended): whenever at least two tables are merged and any of them
lacks one of the expected join-key columns, the reconciliation run raises
an uncaught `KeyError` at the first merge step involving that table and
aborts without producing output; the step is never skipped. -/
theorem C9_missing_key_aborts :
    ∀ (dfs : List CTable), 2 ≤ dfs.length →
      (∃ df ∈ dfs, ∃ k ∈ keyColumns, k ∉ df.cols) →
      exceptOk (merge_csv_from_zips dfs) = false := by
  intro dfs hlen hex
  cases dfs with
  | nil => exact absurd hlen (by decide)
  | cons d rest =>
    have hrest : rest ≠ [] := by
      intro h
      subst h
      exact absurd hlen (by simp)
    have hml : exceptOk (mergeLoop d rest) = false := by
      apply mergeLoop_missing
      obtain ⟨df, hdf, k, hk, hnk⟩ := hex
      have hnm : ¬ hasKeys df := fun hkk => hnk (hkk k hk)
      rcases List.mem_cons.mp hdf with rfl | hm
      · exact Or.inl ⟨hnm, hrest⟩
      · exact Or.inr ⟨df, hm, hnm⟩
    have hred : merge_csv_from_zips (d :: rest) =
        (match mergeLoop d rest with
         | .error e => Except.error e
         | .ok t => Except.ok ⟨t.cols, dropDup t.rows⟩) := rfl
    rw [hred]
    cases hml' : mergeLoop d rest with
    | ok t =>
      rw [hml'] at hml
      exact absurd hml (by simp [exceptOk])
    | error e => rfl

/-- C9 witness: the amended theorem applied to the concrete two-table run
whose second table lacks `Duration`. -/
theorem C9_witness : exceptOk (merge_csv_from_zips [ctA, ctNoKey]) = false :=
  C9_missing_key_aborts [ctA, ctNoKey] (by decide)
    ⟨ctNoKey, by decide, "Duration", by decide, by decide⟩

/-! ## Theorems for claim C8 -/

theorem mem_of_mem_dropDup {α : Type} [DecidableEq α] :
    ∀ (l : List α) (x : α), x ∈ dropDup l → x ∈ l := by
  intro l
  induction l using dropDup.induct with
  | case1 =>
    intro x hx
    rw [dropDup] at hx
    exact hx
  | case2 y rest ih =>
    intro x hx
    rw [dropDup] at hx
    rcases List.mem_cons.mp hx with rfl | h
    · exact List.mem_cons_self _ _
    · exact List.mem_cons_of_mem _ (List.mem_filter.mp (ih x h)).1

theorem dropDup_nodup {α : Type} [DecidableEq α] : ∀ (l : List α), (dropDup l).Nodup := by
  intro l
  induction l using dropDup.induct with
  | case1 => rw [dropDup]; exact List.nodup_nil
  | case2 y rest ih =>
    rw [dropDup]
    rw [List.nodup_cons]
    refine ⟨?_, ih⟩
    intro hy
    have := (List.mem_filter.mp (mem_of_mem_dropDup _ _ hy)).2
    simp at this

/-- C8 counterexample: processing the same file twice through the
concatenate-and-tag reconciliation keeps both copies of every row — the
output contains exact duplicate rows, so no end-of-run deduplication
exists in this merge policy, contradicting the claim. -/
theorem C8_counterexample :
    process_multiple_jsons demoFiles =
      some [(fallbackNames, convRow fallbackNames demoRow1),
            (fallbackNames, convRow fallbackNames demoRow2),
            (fallbackNames, convRow fallbackNames demoRow1),
            (fallbackNames, convRow fallbackNames demoRow2)] ∧
    ¬ ([(fallbackNames, convRow fallbackNames demoRow1),
        (fallbackNames, convRow fallbackNames demoRow2),
        (fallbackNames, convRow fallbackNames demoRow1),
        (fallbackNames, convRow fallbackNames demoRow2)] :
        List (List String × ConvRow)).Nodup := by
  refine ⟨rfl, ?_⟩
  intro h
  exact (List.nodup_cons.mp h).1 (List.mem_cons_of_mem _ (List.mem_cons_self _ _))

/-- C8 (amended): exact-duplicate rows are dropped once at the very end of
the outer-key merge-with-fill reconciliation (its output is always
duplicate-free), while the concatenate-and-tag reconciliation performs no
deduplication at all — its output length is exactly the sum of the
processed frames' row counts, duplicates included. -/
theorem C8_dedup_only_in_merge_policy :
    (∀ (dfs : List CTable) (t : CTable),
      merge_csv_from_zips dfs = .ok t → t.rows.Nodup) ∧
    (∀ (files : List (String × Json)) (out : List (List String × ConvRow)),
      process_multiple_jsons files = some out →
      out.length = ((processedFrames files).map (fun f => f.rows.length)).sum) := by
  constructor
  · intro dfs t h
    cases dfs with
    | nil =>
      injection h with h
      rw [← h]
      exact List.nodup_nil
    | cons d rest =>
      have hred : merge_csv_from_zips (d :: rest) =
          (match mergeLoop d rest with
           | .error e => Except.error e
           | .ok t0 => Except.ok ⟨t0.cols, dropDup t0.rows⟩) := rfl
      rw [hred] at h
      cases hml : mergeLoop d rest with
      | error e => rw [hml] at h; exact Except.noConfusion h
      | ok t0 =>
        rw [hml] at h
        injection h with h
        rw [← h]
        exact dropDup_nodup t0.rows
  · intro files out h
    unfold process_multiple_jsons at h
    by_cases he : (processedFrames files).isEmpty
    · rw [if_pos he] at h
      exact Option.noConfusion h
    · rw [if_neg he] at h
      injection h with h
      rw [← h]
      generalize processedFrames files = fs
      induction fs with
      | nil => rfl
      | cons f rest ihf =>
        simp only [List.flatMap_cons, List.map_cons, List.length_append,
          List.length_map, List.sum_cons, ihf]

/-- C8 witness: the amended theorem applied to the concrete merged pair and
to the duplicated demo input. -/
theorem C8_witness :
    mergedAB.rows.Nodup ∧
      demoOut.length = ((processedFrames demoFiles).map (fun f => f.rows.length)).sum :=
  ⟨C8_dedup_only_in_merge_policy.1 [ctA, ctB] mergedAB rfl,
   C8_dedup_only_in_merge_policy.2 demoFiles demoOut rfl⟩

/-! ## The grouped cumulative sum (claims C4 and C10) -/

theorem groupSum_zero (ps : List (String × Option ℚ)) (c : String) :
    groupSum ps c 0 = 0 := by
  simp [groupSum]

theorem groupSum_cons_none (id : String) (rest : List (String × Option ℚ))
    (c : String) (n : Nat) :
    groupSum ((id, none) :: rest) c (n + 1) = groupSum rest c n := by
  unfold groupSum
  rw [List.take_succ_cons, List.filter_cons]
  by_cases h : id = c
  · rw [if_pos (by simp [h]), List.filterMap_cons]
  · rw [if_neg (by simp [h])]

theorem groupSum_cons_some (id : String) (x : ℚ) (rest : List (String × Option ℚ))
    (c : String) (n : Nat) :
    groupSum ((id, some x) :: rest) c (n + 1) =
      (if id = c then x else 0) + groupSum rest c n := by
  unfold groupSum
  rw [List.take_succ_cons, List.filter_cons]
  by_cases h : id = c
  · rw [if_pos (by simp [h]), if_pos h, List.filterMap_cons]
    simp
  · rw [if_neg (by simp [h]), if_neg h, zero_add]

theorem cumsumGo_get? : ∀ (l : List (String × Option ℚ)) (acc : List (String × ℚ))
    (i : Nat),
    (cumsumGo acc l).get? i = (l.get? i).map (fun p =>
      p.2.map (fun _ => (getA acc p.1).getD 0 + groupSum l p.1 (i + 1))) := by
  intro l
  induction l with
  | nil => intro acc i; simp [cumsumGo]
  | cons hd rest ih =>
    intro acc i
    obtain ⟨id, v⟩ := hd
    cases v with
    | none =>
      simp only [cumsumGo]
      cases i with
      | zero => simp
      | succ i =>
        rw [List.get?_cons_succ, List.get?_cons_succ, ih acc i]
        cases hg : rest.get? i with
        | none => simp
        | some p =>
          simp only [Option.map_some']
          congr 1
          cases hp2 : p.2 with
          | none => simp
          | some y =>
            simp only [Option.map_some']
            congr 1
            rw [groupSum_cons_none]
    | some x =>
      simp only [cumsumGo]
      cases i with
      | zero =>
        rw [List.get?_cons_zero, List.get?_cons_zero]
        simp only [Option.map_some']
        congr 1
        rw [groupSum_cons_some, if_pos rfl, groupSum_zero, add_zero]
      | succ i =>
        rw [List.get?_cons_succ, List.get?_cons_succ,
          ih ((id, (getA acc id).getD 0 + x) :: acc) i]
        cases hg : rest.get? i with
        | none => simp
        | some p =>
          simp only [Option.map_some']
          congr 1
          cases hp2 : p.2 with
          | none => simp
          | some y =>
            simp only [Option.map_some']
            congr 1
            rw [groupSum_cons_some]
            by_cases hid : id = p.1
            · rw [if_pos hid]
              simp only [getA, if_pos hid, Option.getD_some]
              rw [hid]
              ring
            · rw [if_neg hid]
              simp only [getA, if_neg hid]
              ring

theorem cumsumGo_length : ∀ (l : List (String × Option ℚ)) (acc : List (String × ℚ)),
    (cumsumGo acc l).length = l.length := by
  intro l
  induction l with
  | nil => intro acc; rfl
  | cons hd rest ih =>
    intro acc
    obtain ⟨id, v⟩ := hd
    cases v with
    | none => simp [cumsumGo, ih]
    | some x => simp [cumsumGo, ih]

theorem pairsOf_length (df : DFrame) (m : String) :
    (pairsOf df m).length = df.rows.length := List.length_map _ _

theorem cumsumCol_pairs_length (df : DFrame) (m : String) :
    (cumsumCol (pairsOf df m)).length = df.rows.length := by
  rw [cumsumCol, cumsumGo_length, pairsOf_length]

theorem columnOfD_setColD_self (df : DFrame) (n : String) (vs : List (Option ℚ))
    (hlen : vs.length = df.rows.length) : columnOfD (setColD df n vs) n = vs := by
  unfold columnOfD setColD
  simp only
  generalize df.rows = rows at hlen ⊢
  induction rows generalizing vs with
  | nil =>
    cases vs with
    | nil => rfl
    | cons v vs => exact absurd hlen (by simp)
  | cons r rest ih =>
    cases vs with
    | nil => exact absurd hlen (by simp)
    | cons v vs =>
      simp only [List.zip_cons_cons, List.map_cons]
      rw [getA_setA_self]
      simp only [Option.join]
      refine congrArg₂ List.cons rfl ?_
      exact ih vs (by simpa using hlen)

theorem columnOfD_setColD_ne (df : DFrame) (n c : String) (vs : List (Option ℚ))
    (hne : n ≠ c) (hlen : vs.length = df.rows.length) :
    columnOfD (setColD df n vs) c = columnOfD df c := by
  unfold columnOfD setColD
  simp only
  generalize df.rows = rows at hlen ⊢
  induction rows generalizing vs with
  | nil => cases vs <;> rfl
  | cons r rest ih =>
    cases vs with
    | nil => exact absurd hlen (by simp)
    | cons v vs =>
      simp only [List.zip_cons_cons, List.map_cons]
      rw [getA_setA_ne _ _ _ _ hne]
      refine congrArg₂ List.cons rfl ?_
      exact ih vs (by simpa using hlen)

theorem pairsOf_setColD (df : DFrame) (n m : String) (vs : List (Option ℚ))
    (hne : n ≠ m) (hlen : vs.length = df.rows.length) :
    pairsOf (setColD df n vs) m = pairsOf df m := by
  unfold pairsOf setColD
  simp only
  generalize df.rows = rows at hlen ⊢
  induction rows generalizing vs with
  | nil => cases vs <;> rfl
  | cons r rest ih =>
    cases vs with
    | nil => exact absurd hlen (by simp)
    | cons v vs =>
      simp only [List.zip_cons_cons, List.map_cons]
      rw [getA_setA_ne _ _ _ _ hne]
      refine congrArg₂ List.cons rfl ?_
      exact ih vs (by simpa using hlen)

theorem rows_setColD_length (df : DFrame) (n : String) (vs : List (Option ℚ))
    (hlen : vs.length = df.rows.length) :
    (setColD df n vs).rows.length = df.rows.length := by
  unfold setColD
  simp [List.length_zip, hlen]

theorem endsRT_append (c : String) : endsRT (c ++ "_RUNNING_TOTAL") = true := by
  unfold endsRT
  rw [decide_eq_true_eq]
  have h : (c ++ "_RUNNING_TOTAL").toList = c.toList ++ "_RUNNING_TOTAL".toList :=
    String.data_append c "_RUNNING_TOTAL"
  rw [h]
  exact List.suffix_append _ _

theorem not_endsRT_ne (c : String) (h : endsRT c = false) (y : String) :
    c ≠ y ++ "_RUNNING_TOTAL" := by
  intro he
  rw [he, endsRT_append] at h
  exact Bool.noConfusion h

theorem append_RT_inj {c1 c2 : String} (h : c1 ++ "_RUNNING_TOTAL" = c2 ++ "_RUNNING_TOTAL") :
    c1 = c2 := by
  have hd := congrArg String.data h
  rw [String.data_append, String.data_append] at hd
  exact String.ext (List.append_cancel_right hd)

theorem foldTotals_untouched : ∀ (l : List String) (acc : DFrame) (c : String),
    (∀ m ∈ l, m ++ "_RUNNING_TOTAL" ≠ c) →
    columnOfD (l.foldl
        (fun a m => setColD a (m ++ "_RUNNING_TOTAL") (cumsumCol (pairsOf a m))) acc) c
      = columnOfD acc c := by
  intro l
  induction l with
  | nil => intro acc c _; rfl
  | cons m0 rest ih =>
    intro acc c h
    simp only [List.foldl_cons]
    rw [ih _ c (fun m hm => h m (List.mem_cons_of_mem _ hm))]
    exact columnOfD_setColD_ne acc _ c _ (h m0 (List.mem_cons_self _ _))
      (cumsumCol_pairs_length acc m0)

theorem foldTotals_pairs : ∀ (l : List String) (acc : DFrame) (c : String),
    endsRT c = false →
    pairsOf (l.foldl
        (fun a m => setColD a (m ++ "_RUNNING_TOTAL") (cumsumCol (pairsOf a m))) acc) c
      = pairsOf acc c := by
  intro l
  induction l with
  | nil => intro acc c _; rfl
  | cons m0 rest ih =>
    intro acc c h
    simp only [List.foldl_cons]
    rw [ih _ c h]
    exact pairsOf_setColD acc _ c _ (fun he => not_endsRT_ne c h m0 he.symm)
      (cumsumCol_pairs_length acc m0)

theorem foldTotals_result : ∀ (l : List String) (acc : DFrame) (m : String),
    m ∈ l → l.Nodup → (∀ m' ∈ l, endsRT m' = false) →
    columnOfD (l.foldl
        (fun a m' => setColD a (m' ++ "_RUNNING_TOTAL") (cumsumCol (pairsOf a m'))) acc)
      (m ++ "_RUNNING_TOTAL") = cumsumCol (pairsOf acc m) := by
  intro l
  induction l with
  | nil => intro acc m hm; exact absurd hm (List.not_mem_nil _)
  | cons m0 rest ih =>
    intro acc m hm hnd hrt
    simp only [List.foldl_cons]
    rcases List.mem_cons.mp hm with rfl | hmem
    · rw [foldTotals_untouched rest _ (m ++ "_RUNNING_TOTAL")
        (fun m' hm' he => (List.nodup_cons.mp hnd).1 ((append_RT_inj he) ▸ hm'))]
      exact columnOfD_setColD_self acc _ _ (cumsumCol_pairs_length acc m)
    · rw [ih _ m hmem (List.nodup_cons.mp hnd).2
        (fun m' hm' => hrt m' (List.mem_cons_of_mem _ hm'))]
      refine congrArg cumsumCol ?_
      exact pairsOf_setColD acc _ m _
        (fun he => not_endsRT_ne m (hrt m hm) m0 he.symm)
        (cumsumCol_pairs_length acc m0)

/-- C4: for every metric column `m` that is not itself a running-total
column, the derived `m_RUNNING_TOTAL` value at each row equals the sum of
`m` over all rows up to and including that row that carry the same video
id, in the supplied row order. -/
theorem C4_running_total_is_group_prefix_sum :
    ∀ (df : DFrame) (m : String), df.cols.Nodup → m ∈ df.cols → endsRT m = false →
      ∀ (i : Nat) (vid : String) (v : ℚ),
        (pairsOf df m).get? i = some (vid, some v) →
        (columnOfD (runTotals df) (m ++ "_RUNNING_TOTAL")).get? i =
          some (some (groupSum (pairsOf df m) vid (i + 1))) := by
  intro df m hnd hm hrt i vid v hget
  have hmem : m ∈ df.cols.filter (fun c => !endsRT c) :=
    List.mem_filter.mpr ⟨hm, by simp [hrt]⟩
  have hfnd : (df.cols.filter (fun c => !endsRT c)).Nodup := hnd.filter _
  have hfrt : ∀ m' ∈ df.cols.filter (fun c => !endsRT c), endsRT m' = false := by
    intro m' hm'
    have := List.of_mem_filter hm'
    simpa using this
  unfold runTotals
  rw [foldTotals_result _ df m hmem hfnd hfrt]
  rw [cumsumCol, cumsumGo_get? _ [] i, hget]
  simp only [Option.map_some']
  have hacc : (getA ([] : List (String × ℚ)) vid).getD 0 = 0 := rfl
  rw [hacc, zero_add]

/-- C4 witness: in a three-row table (`v1`:3, `v1`:4, `v2`:5) the running
total at the second `v1` row is the group prefix sum over the first two
rows, namely 7. -/
theorem C4_witness :
    (columnOfD (runTotals demoDF4) ("VIEWS" ++ "_RUNNING_TOTAL")).get? 1 =
      some (some (groupSum (pairsOf demoDF4 "VIEWS") "v1" 2)) ∧
    groupSum (pairsOf demoDF4 "VIEWS") "v1" 2 = 7 := by
  constructor
  · exact C4_running_total_is_group_prefix_sum demoDF4 "VIEWS" (by decide) (by decide)
      (by decide) 1 "v1" 4 rfl
  · show groupSum [("v1", some 3), ("v1", some 4), ("v2", some 5)] "v1" 2 = 7
    rw [show (2 : Nat) = 1 + 1 from rfl, groupSum_cons_some, if_pos rfl,
      groupSum_cons_some, if_pos rfl, groupSum_zero]
    norm_num

/-! ## Theorems for claim C10 -/

theorem getA_map_fill (l : List (String × Option ℚ)) (c : String) :
    getA (l.map (fun p => (p.1, some (p.2.getD 0)))) c =
      (getA l c).map (fun v => some (v.getD 0)) := by
  induction l with
  | nil => rfl
  | cons p rest ih =>
    obtain ⟨c0, v⟩ := p
    simp only [List.map_cons, getA]
    by_cases hc : c0 = c
    · rw [if_pos hc, if_pos hc]
      rfl
    · rw [if_neg hc, if_neg hc]
      exact ih

theorem pairsOf_fillna0 (df : DFrame) (m : String)
    (hpresent : ∀ r ∈ df.rows, (getA r.vals m).isSome = true) :
    pairsOf (fillna0 df) m =
      (pairsOf df m).map (fun p => (p.1, some (p.2.getD 0))) := by
  unfold pairsOf fillna0
  simp only [List.map_map]
  apply List.map_congr_left
  intro r hr
  simp only [Function.comp_apply]
  rw [getA_map_fill]
  obtain ⟨w, hw⟩ := Option.isSome_iff_exists.mp (hpresent r hr)
  rw [hw]
  rfl

theorem groupSum_fillna : ∀ (ps : List (String × Option ℚ)) (vid : String) (n : Nat),
    groupSum (ps.map (fun p => (p.1, some (p.2.getD 0)))) vid n = groupSumD ps vid n := by
  intro ps
  induction ps with
  | nil => intro vid n; cases n <;> rfl
  | cons p rest ih =>
    intro vid n
    obtain ⟨id, v⟩ := p
    cases n with
    | zero => rfl
    | succ n =>
      simp only [List.map_cons]
      rw [groupSum_cons_some]
      unfold groupSumD
      rw [List.take_succ_cons, List.filter_cons]
      by_cases h : id = vid
      · rw [if_pos h, if_pos (by simp [h]), List.map_cons, List.sum_cons]
        rw [ih]
        rfl
      · rw [if_neg h, if_neg (by simp [h]), zero_add]
        exact ih vid n

/-- C10 (implicit): after reconciliation, `fillna(0)` leaves no null in the
metrics table; consequently every running total derived afterwards treats a
video/date combination absent from some source as contributing exactly 0 —
the total at row `i` equals the group prefix sum with NaN read as 0. -/
theorem C10_fillna_before_totals :
    ∀ df : DFrame,
      (∀ r ∈ (fillna0 df).rows, ∀ p ∈ r.vals, p.2 ≠ none) ∧
      (∀ (m : String) (i : Nat) (vid : String) (v0 : Option ℚ),
        (∀ r ∈ df.rows, (getA r.vals m).isSome = true) →
        (pairsOf df m).get? i = some (vid, v0) →
        (cumsumCol (pairsOf (fillna0 df) m)).get? i =
          some (some (groupSumD (pairsOf df m) vid (i + 1)))) := by
  intro df
  constructor
  · intro r hr p hp
    unfold fillna0 at hr
    simp only [List.mem_map] at hr
    obtain ⟨r0, _, rfl⟩ := hr
    simp only [List.mem_map] at hp
    obtain ⟨p0, _, rfl⟩ := hp
    simp
  · intro m i vid v0 hpresent hget
    rw [cumsumCol, pairsOf_fillna0 df m hpresent, cumsumGo_get?]
    rw [List.get?_map, hget]
    simp only [Option.map_some']
    have hacc : (getA ([] : List (String × ℚ)) vid).getD 0 = 0 := rfl
    rw [groupSum_fillna, hacc, zero_add]

/-- C10 witness: with a NaN gap in the middle of a `v1` group, the filled
running total at the third row is the NaN-as-zero prefix sum, namely 7. -/
theorem C10_witness :
    (cumsumCol (pairsOf (fillna0 demoDF10) "VIEWS")).get? 2 =
      some (some (groupSumD (pairsOf demoDF10 "VIEWS") "v1" 3)) ∧
    groupSumD (pairsOf demoDF10 "VIEWS") "v1" 3 = 7 := by
  constructor
  · exact (C10_fillna_before_totals demoDF10).2 "VIEWS" 2 "v1" (some 4)
      (by decide) rfl
  · show groupSumD [("v1", some 3), ("v1", none), ("v1", some 4)] "v1" 3 = 7
    unfold groupSumD
    simp only [List.take, List.filter]
    norm_num [getA]

/-! ## Theorems for claim C6 -/

/-- C6 counterexample: in the daily pipeline a watch-time cell of 1 ms
becomes exactly `1/3600000` hours — an unrounded value, whereas the claim
requires every unit conversion to round to its fixed precision
(2 decimals would give 0 here). -/
theorem C6_counterexample :
    columnOfD (add_running_totals demoDF) "WATCH_TIME" = [some ((1 : ℚ) / 3600000)] ∧
    round2 ((1 : ℚ) / 3600000) = 0 ∧
    (1 : ℚ) / 3600000 ≠ round2 ((1 : ℚ) / 3600000) := by
  refine ⟨rfl, ?_, ?_⟩
  · unfold round2 roundHalfEven
    norm_num [Int.floor_eq_zero_iff]
  · have h2 : round2 ((1 : ℚ) / 3600000) = 0 := by
      unfold round2 roundHalfEven
      norm_num [Int.floor_eq_zero_iff]
    rw [h2]
    norm_num

theorem getA_map_wt (l : List (String × Option ℚ)) (c : String) :
    getA (l.map (fun p =>
        (p.1, if p.1 = "WATCH_TIME" then p.2.map (fun x => x / 3600000) else p.2))) c =
      (getA l c).map
        (fun v => if c = "WATCH_TIME" then v.map (fun x => x / 3600000) else v) := by
  induction l with
  | nil => rfl
  | cons p rest ih =>
    obtain ⟨c0, v⟩ := p
    simp only [List.map_cons, getA]
    by_cases hc : c0 = c
    · rw [if_pos hc, if_pos hc, hc]
      rfl
    · rw [if_neg hc, if_neg hc]
      exact ih

/-- C6 (amended): in the first-days pipeline each conversion is applied
exactly once, by column-name pattern, with the claimed precisions —
percentage/VTR columns round to 2 decimals, the watch-time column converts
to hours (÷3,600,000, 2 decimals), the average-watch-time column to minutes
(÷60,000, 2 decimals), other milliseconds columns to seconds (÷1,000,
1 decimal), and all remaining columns cast to integer with null as 0.
In the daily pipeline the watch-time column is divided by 3,600,000 exactly
once but is NOT rounded, and no other daily column is converted. -/
theorem C6_conversions_once_by_pattern :
    (∀ (col : String) (v : Option ℚ),
      (hasSubstr col "PERCENTAGE" || hasSubstr col "VTR") = true →
      convertCell col v = v.map round2) ∧
    (∀ v : Option ℚ,
      convertCell "WATCH_TIME" v = v.map (fun x => round2 (x / 3600000))) ∧
    (∀ v : Option ℚ,
      convertCell "AVERAGE_WATCH_TIME" v = v.map (fun x => round2 (x / 60000))) ∧
    (∀ (col : String) (v : Option ℚ),
      (hasSubstr col "PERCENTAGE" || hasSubstr col "VTR") = false →
      col ≠ "WATCH_TIME" → col ≠ "AVERAGE_WATCH_TIME" →
      (hasSubstr col "TIME" && hasSubstr col "MILLI") = true →
      convertCell col v = v.map (fun x => round1 (x / 1000))) ∧
    (∀ (col : String) (v : Option ℚ),
      (hasSubstr col "PERCENTAGE" || hasSubstr col "VTR") = false →
      col ≠ "WATCH_TIME" → col ≠ "AVERAGE_WATCH_TIME" →
      (hasSubstr col "TIME" && hasSubstr col "MILLI") = false →
      convertCell col v = some ((ratTrunc (v.getD 0) : ℤ) : ℚ)) ∧
    (∀ df : DFrame, "WATCH_TIME" ∈ df.cols →
      columnOfD (convertWatchTime df) "WATCH_TIME" =
        (columnOfD df "WATCH_TIME").map (Option.map (fun x => x / 3600000))) ∧
    (∀ df : DFrame, "WATCH_TIME" ∉ df.cols → convertWatchTime df = df) := by
  refine ⟨?_, ?_, ?_, ?_, ?_, ?_, ?_⟩
  · intro col v h
    unfold convertCell
    rw [if_pos h]
  · intro v
    unfold convertCell
    rw [if_neg (by decide), if_pos rfl]
  · intro v
    unfold convertCell
    rw [if_neg (by decide), if_neg (by decide), if_pos rfl]
  · intro col v h1 h2 h3 h4
    unfold convertCell
    rw [if_neg (by simp [h1]), if_neg h2, if_neg h3, if_pos h4]
  · intro col v h1 h2 h3 h4
    unfold convertCell
    rw [if_neg (by simp [h1]), if_neg h2, if_neg h3, if_neg (by simp [h4])]
  · intro df hmem
    unfold convertWatchTime columnOfD
    rw [if_pos hmem]
    simp only [List.map_map]
    apply List.map_congr_left
    intro r _
    simp only [Function.comp_apply]
    rw [getA_map_wt]
    cases hg : getA r.vals "WATCH_TIME" with
    | none => rfl
    | some w =>
      simp only [Option.map_some', if_pos rfl]
      rfl
  · intro df h
    unfold convertWatchTime
    rw [if_neg h]

/-- C6 witness: each conversion clause at a concrete column and value, and
the daily watch-time clause at the concrete demo tables. -/
theorem C6_witness :
    convertCell "VIDEO_THUMBNAIL_IMPRESSIONS_VTR" (some (1 / 3)) = some (round2 (1 / 3)) ∧
    convertCell "WATCH_TIME" (some 7200000) = some (round2 (7200000 / 3600000)) ∧
    convertCell "AVERAGE_WATCH_TIME" (some 120000) = some (round2 (120000 / 60000)) ∧
    convertCell "SOME_TIME_MILLISECONDS" (some 1500) = some (round1 (1500 / 1000)) ∧
    convertCell "VIEWS" none = some ((ratTrunc ((none : Option ℚ).getD 0) : ℤ) : ℚ) ∧
    columnOfD (convertWatchTime demoDF) "WATCH_TIME" =
      (columnOfD demoDF "WATCH_TIME").map (Option.map (fun x => x / 3600000)) ∧
    convertWatchTime demoDF4 = demoDF4 :=
  ⟨C6_conversions_once_by_pattern.1 _ _ (by decide),
   C6_conversions_once_by_pattern.2.1 _,
   C6_conversions_once_by_pattern.2.2.1 _,
   C6_conversions_once_by_pattern.2.2.2.1 _ _ (by decide) (by decide) (by decide) (by decide),
   C6_conversions_once_by_pattern.2.2.2.2.1 _ _ (by decide) (by decide) (by decide) (by decide),
   C6_conversions_once_by_pattern.2.2.2.2.2.1 demoDF (by decide),
   C6_conversions_once_by_pattern.2.2.2.2.2.2 demoDF4 (by decide)⟩

/-! ## Theorems for claim C7 -/

/-- C7 counterexample: a row with zero views and one comment — the
engagement and retention rates come out `+∞` (pandas float division by
zero), not the 0 the claim requires (the claim even says "never ...
infinity"). -/
theorem C7_counterexample :
    engagementRate demoVRow = PVal.pinf ∧ retentionRate demoVRow = PVal.pinf ∧
      PVal.pinf ≠ PVal.num 0 := by
  refine ⟨?_, ?_, by decide⟩
  · show pfill0 (pmul (pdiv (engNum demoVRow) demoVRow.views) (.num 100)) = PVal.pinf
    have h : engNum demoVRow = PVal.num (1 + 0 + 0) := rfl
    rw [h]
    show pfill0 (pmul (pdiv (.num (1 + 0 + 0)) (.num 0)) (.num 100)) = PVal.pinf
    simp only [pdiv]
    rw [if_pos trivial, if_neg (by norm_num), if_pos (by norm_num)]
    simp only [pmul]
    rw [if_pos (by norm_num)]
    rfl
  · show pfill0 (pdiv demoVRow.estimatedMinutesWatched demoVRow.views) = PVal.pinf
    show pfill0 (pdiv (.num 40) (.num 0)) = PVal.pinf
    simp only [pdiv]
    rw [if_pos trivial, if_neg (by norm_num), if_pos (by norm_num)]
    rfl

/-- C7 (amended): the per-day view rate is views divided by
days-since-publish with 0 replaced by 1 (exact quotient, no guard beyond
that — a null `views` stays null); the engagement and retention rates equal
0 whenever their numerator or the views denominator is null, or when
numerator and denominator are both zero; a zero denominator with a nonzero
numerator yields `+∞` (`−∞` for a negative numerator), and otherwise the
rates are the exact quotients (engagement scaled to percent). -/
theorem C7_rate_guards :
    ∀ r : VRow,
      (∀ q : ℚ, r.views = .num q →
        viewsPerDay r = .num (q / (if r.days = 0 then 1 else (r.days : ℚ)))) ∧
      (r.views = .nan → viewsPerDay r = .nan) ∧
      (∀ n q : ℚ, engNum r = .num n → r.views = .num q →
        engagementRate r =
          if q = 0 then (if n = 0 then .num 0 else if 0 < n then .pinf else .ninf)
          else .num (n / q * 100)) ∧
      ((engNum r = .nan ∨ r.views = .nan) → engagementRate r = .num 0) ∧
      (∀ n q : ℚ, r.estimatedMinutesWatched = .num n → r.views = .num q →
        retentionRate r =
          if q = 0 then (if n = 0 then .num 0 else if 0 < n then .pinf else .ninf)
          else .num (n / q)) ∧
      ((r.estimatedMinutesWatched = .nan ∨ r.views = .nan) → retentionRate r = .num 0) := by
  intro r
  refine ⟨?_, ?_, ?_, ?_, ?_, ?_⟩
  · intro q h
    unfold viewsPerDay
    rw [h]
    have hbne : (if r.days = 0 then (1 : ℚ) else (r.days : ℚ)) ≠ 0 := by
      by_cases hd : r.days = 0
      · rw [if_pos hd]; norm_num
      · rw [if_neg hd]
        exact_mod_cast hd
    simp only [pdiv]
    rw [if_neg hbne]
  · intro h
    unfold viewsPerDay
    rw [h]
    rfl
  · intro n q hn hq
    unfold engagementRate
    rw [hn, hq]
    simp only [pdiv]
    by_cases hq0 : q = 0
    · rw [if_pos hq0, if_pos hq0]
      by_cases hn0 : n = 0
      · rw [if_pos hn0, if_pos hn0]
        rfl
      · rw [if_neg hn0, if_neg hn0]
        by_cases hpos : 0 < n
        · rw [if_pos hpos]
          simp only [pmul]
          rw [if_pos (by norm_num)]
          rfl
        · rw [if_neg hpos]
          simp only [pmul]
          rw [if_pos (by norm_num)]
          rfl
    · rw [if_neg hq0, if_neg hq0]
      rfl
  · rintro (h | h)
    · unfold engagementRate
      rw [h]
      cases r.views <;> rfl
    · unfold engagementRate
      rw [h]
      cases engNum r <;> rfl
  · intro n q hn hq
    unfold retentionRate
    rw [hn, hq]
    simp only [pdiv]
    by_cases hq0 : q = 0
    · rw [if_pos hq0, if_pos hq0]
      by_cases hn0 : n = 0
      · rw [if_pos hn0, if_pos hn0]
        rfl
      · rw [if_neg hn0, if_neg hn0]
        by_cases hpos : 0 < n
        · rw [if_pos hpos]
          rfl
        · rw [if_neg hpos]
          rfl
    · rw [if_neg hq0, if_neg hq0]
      rfl
  · rintro (h | h)
    · unfold retentionRate
      rw [h]
      cases r.views <;> rfl
    · unfold retentionRate
      rw [h]
      cases r.estimatedMinutesWatched <;> rfl

/-- C7 witness: the amended clauses at a concrete ordinary row (50 views,
2 comments + 3 likes + 1 share, 20 minutes watched, 5 days). -/
theorem C7_witness :
    viewsPerDay demoVRow2 = .num (50 / (if (5 : ℤ) = 0 then 1 else ((5 : ℤ) : ℚ))) ∧
    engagementRate demoVRow2 = .num ((2 + 3 + 1 : ℚ) / 50 * 100) ∧
    retentionRate demoVRow2 = .num ((20 : ℚ) / 50) := by
  refine ⟨?_, ?_, ?_⟩
  · exact (C7_rate_guards demoVRow2).1 50 rfl
  · have h := (C7_rate_guards demoVRow2).2.2.1 (2 + 3 + 1 : ℚ) 50 rfl rfl
    rwa [if_neg (by norm_num)] at h
  · have h := (C7_rate_guards demoVRow2).2.2.2.2.1 (20 : ℚ) 50 rfl rfl
    rwa [if_neg (by norm_num)] at h

end YTA
